import Mathlib

/-!
Verification development for the ThesisForge structured-output resilience layer
(services/geminiService.ts).  The JavaScript string and JSON primitives the
service relies on are modelled first, then the service's own functions are
translated one-to-one.  All definitions are executable and compute by kernel
reduction.  Caveats of the model, each irrelevant to the inputs exercised here:
characters are Unicode scalars rather than UTF-16 code units, `toLowerCase`
lowers ASCII only, and JSON numbers are kept exact as mantissa/exponent pairs
instead of IEEE doubles.
-/

namespace TF

/-- The left-brace character, `\x7b`. -/
def lbrace : Char := Char.ofNat 123

/-- The right-brace character, `\x7d`. -/
def rbrace : Char := Char.ofNat 125

/-- The backtick character. -/
def btick : Char := Char.ofNat 96

/-- JavaScript whitespace as used by `String.prototype.trim` and regex `\s`. -/
def isJsSpace (c : Char) : Bool :=
  c == ' ' || c == '\t' || c == '\n' || c == '\r' ||
  c.toNat == 11 || c.toNat == 12 || c.toNat == 0xA0 || c.toNat == 0x1680 ||
  (0x2000 ≤ c.toNat && c.toNat ≤ 0x200A) ||
  c.toNat == 0x2028 || c.toNat == 0x2029 || c.toNat == 0x202F ||
  c.toNat == 0x205F || c.toNat == 0x3000 || c.toNat == 0xFEFF

/-- JSON (`JSON.parse`) whitespace: space, tab, line feed, carriage return. -/
def isJsonWs (c : Char) : Bool :=
  c == ' ' || c == '\t' || c == '\n' || c == '\r'

/-- JS `String.prototype.trim` on a character list. -/
def jsTrim (l : List Char) : List Char :=
  ((l.dropWhile isJsSpace).reverse.dropWhile isJsSpace).reverse

/-- JS `String.prototype.trim` on a `String`. -/
def jsTrimS (s : String) : String := String.mk (jsTrim s.data)

/-- Index of the first occurrence of character `c`, JS `indexOf` (−1 ↦ `none`). -/
def idxOfChar (l : List Char) (c : Char) : Option Nat :=
  l.findIdx? (· == c)

/-- Index of the last occurrence of character `c`, JS `lastIndexOf`. -/
def lastIdxOfChar (l : List Char) (c : Char) : Option Nat :=
  match idxOfChar l.reverse c with
  | none => none
  | some i => some (l.length - 1 - i)

/-- JS `String.prototype.substring`: swaps its arguments when start exceeds
end, clamps to the string length. -/
def jsSubstring (l : List Char) (a b : Nat) : List Char :=
  let lo := min a b
  let hi := min (max a b) l.length
  (l.take hi).drop lo

/-- JS `String.prototype.includes` / substring containment. -/
def containsSub (hay pat : List Char) : Bool :=
  hay.tails.any (fun t => pat.isPrefixOf t)

/-- `String.includes` lifted to `String`. -/
def containsSubS (hay pat : String) : Bool :=
  containsSub hay.data pat.data

/-- ASCII `toLowerCase` (the denylist keywords are ASCII or CJK, which JS
`toLowerCase` maps to themselves). -/
def jsToLower (l : List Char) : List Char := l.map Char.toLower

/-- Replace every occurrence of `pat` (left to right, non-overlapping) by
`rep`; fuel-driven so it computes by reduction. -/
def replaceSubAux (pat rep : List Char) : Nat → List Char → List Char
  | _, [] => []
  | 0, s => s
  | f + 1, c :: cs =>
    if pat.isPrefixOf (c :: cs) then
      rep ++ replaceSubAux pat rep f (List.drop (pat.length - 1) cs)
    else
      c :: replaceSubAux pat rep f cs

/-- JS `String.prototype.replace` with a global literal pattern. -/
def replaceAllSub (pat rep s : List Char) : List Char :=
  replaceSubAux pat rep s.length s

/-- Split at the first occurrence of `pat`: `some (before, after)` where
`before ++ pat ++ after` is the input. -/
def splitFirstSub : List Char → List Char → Option (List Char × List Char)
  | pat, [] => if pat.isPrefixOf ([] : List Char) then some ([], []) else none
  | pat, c :: cs =>
    if pat.isPrefixOf (c :: cs) then some ([], List.drop pat.length (c :: cs))
    else
      match splitFirstSub pat cs with
      | none => none
      | some (b, a) => some (c :: b, a)

/-! ## JSON values and `JSON.parse` -/

/-- A JSON value as produced by `JSON.parse`.  Numbers are kept exact as
`mantissa * 10 ^ exponent`; object fields are in JS property order with
duplicate keys collapsed to the last occurrence. -/
inductive Json where
  | null : Json
  | bool (b : Bool) : Json
  | num (m : Int) (e : Int) : Json
  | str (s : String) : Json
  | arr (xs : List Json) : Json
  | obj (fs : List (String × Json)) : Json

/-- JS truthiness of a parsed JSON value (`NaN` cannot arise from parsing). -/
def Json.truthy : Json → Bool
  | .null => false
  | .bool b => b
  | .num m _ => m != 0
  | .str s => s != ""
  | .arr _ => true
  | .obj _ => true

/-- First-match association lookup on object fields (fields are unique after
parsing, so this is JS property lookup). -/
def jsField (fs : List (String × Json)) (k : String) : Option Json :=
  match fs.find? (fun p => p.1 == k) with
  | none => none
  | some p => some p.2

/-- Assign into an object's field list the way a JS property write does:
an existing key keeps its slot, a new key is appended. -/
def insertField : List (String × Json) → String → Json → List (String × Json)
  | [], k, v => [(k, v)]
  | (k0, v0) :: rest, k, v =>
    if k0 == k then (k0, v) :: rest else (k0, v0) :: insertField rest k v

/-- Hexadecimal digit value. -/
def hexVal (c : Char) : Option Nat :=
  if '0' ≤ c && c ≤ '9' then some (c.toNat - 48)
  else if 'a' ≤ c && c ≤ 'f' then some (c.toNat - 87)
  else if 'A' ≤ c && c ≤ 'F' then some (c.toNat - 55)
  else none

/-- Body of a JSON string literal (after the opening quote), with escapes. -/
def parseJStringAux : Nat → List Char → List Char → Option (String × List Char)
  | 0, _, _ => none
  | _ + 1, [], _ => none
  | f + 1, c :: cs, acc =>
    if c == '"' then some (String.mk acc.reverse, cs)
    else if c == '\\' then
      match cs with
      | [] => none
      | e :: cs2 =>
        if e == '"' then parseJStringAux f cs2 ('"' :: acc)
        else if e == '\\' then parseJStringAux f cs2 ('\\' :: acc)
        else if e == '/' then parseJStringAux f cs2 ('/' :: acc)
        else if e == 'b' then parseJStringAux f cs2 (Char.ofNat 8 :: acc)
        else if e == 'f' then parseJStringAux f cs2 (Char.ofNat 12 :: acc)
        else if e == 'n' then parseJStringAux f cs2 ('\n' :: acc)
        else if e == 'r' then parseJStringAux f cs2 ('\r' :: acc)
        else if e == 't' then parseJStringAux f cs2 ('\t' :: acc)
        else if e == 'u' then
          match cs2 with
          | h1 :: h2 :: h3 :: h4 :: cs3 =>
            match hexVal h1, hexVal h2, hexVal h3, hexVal h4 with
            | some a, some b, some c3, some d =>
              parseJStringAux f cs3
                (Char.ofNat (((a * 16 + b) * 16 + c3) * 16 + d) :: acc)
            | _, _, _, _ => none
          | _ => none
        else none
    else if c.toNat < 32 then none
    else parseJStringAux f cs (c :: acc)

/-- Parse a JSON string literal starting at its opening quote. -/
def parseJString (l : List Char) : Option (String × List Char) :=
  match l with
  | '"' :: rest => parseJStringAux (rest.length + 1) rest []
  | _ => none

/-- Digits of a number, most significant first, as a natural number. -/
def digitsToNat (l : List Char) : Nat :=
  l.foldl (fun a c => a * 10 + (c.toNat - 48)) 0

/-- Parse the integer-part digits of a JSON number: `0` or a nonzero digit
followed by digits (no leading zeros). -/
def parseIntDigits (l : List Char) : Option (List Char × List Char) :=
  match l with
  | [] => none
  | c :: cs =>
    if c == '0' then some ([c], cs)
    else if c.isDigit then
      let t := cs.span Char.isDigit
      some (c :: t.1, t.2)
    else none

/-- Parse a JSON number into `(mantissa, exponent)` and the rest. -/
def parseJNum (l : List Char) : Option ((Int × Int) × List Char) :=
  let (neg, l1) :=
    match l with
    | '-' :: rest => (true, rest)
    | _ => (false, l)
  match parseIntDigits l1 with
  | none => none
  | some (ip, l2) =>
    let (fp, l3) :=
      match l2 with
      | '.' :: rest =>
        let t := rest.span Char.isDigit
        if t.1 = [] then ([], l2) else (t.1, t.2)
      | _ => ([], l2)
    let fracOk : Bool :=
      match l2 with
      | '.' :: rest => !(rest.span Char.isDigit).1.isEmpty
      | _ => true
    if !fracOk then none
    else
      let expPart : Option (Int × List Char) :=
        match l3 with
        | c :: rest =>
          if c == 'e' || c == 'E' then
            let (esign, r2) :=
              match rest with
              | '+' :: rr => ((1 : Int), rr)
              | '-' :: rr => ((-1 : Int), rr)
              | _ => ((1 : Int), rest)
            let t := r2.span Char.isDigit
            if t.1 = [] then none
            else some (esign * (digitsToNat t.1 : Int), t.2)
          else some (0, l3)
        | [] => some (0, l3)
      match expPart with
      | none => none
      | some (ev, l4) =>
        let mag : Nat := digitsToNat (ip ++ fp)
        let m : Int := if neg then -(mag : Int) else (mag : Int)
        some ((m, ev - (fp.length : Int)), l4)

/-- Skip JSON whitespace. -/
def skipJWs (l : List Char) : List Char := l.dropWhile isJsonWs

/-- Parse a comma-separated run of array elements after the first is known to
start here; `pv` parses one value. -/
def parseArrItems (pv : List Char → Option (Json × List Char)) :
    Nat → List Json → List Char → Option (List Json × List Char)
  | 0, _, _ => none
  | f + 1, acc, cs =>
    match pv cs with
    | none => none
    | some (v, rest) =>
      match skipJWs rest with
      | ',' :: r2 => parseArrItems pv f (v :: acc) (skipJWs r2)
      | ']' :: r2 => some ((v :: acc).reverse, r2)
      | _ => none

/-- Parse a comma-separated run of object members after the first is known to
start here; `pv` parses one value. -/
def parseObjItems (pv : List Char → Option (Json × List Char)) :
    Nat → List (String × Json) → List Char → Option (List (String × Json) × List Char)
  | 0, _, _ => none
  | f + 1, acc, cs =>
    match parseJString (skipJWs cs) with
    | none => none
    | some (k, rest) =>
      match skipJWs rest with
      | ':' :: r2 =>
        match pv (skipJWs r2) with
        | none => none
        | some (v, r3) =>
          let acc2 := insertField acc k v
          match skipJWs r3 with
          | ',' :: r4 => parseObjItems pv f acc2 r4
          | c :: r4 =>
            if c == rbrace then some (acc2, r4) else none
          | [] => none
      | _ => none

/-- Parse one JSON value (fuel-driven). -/
def parseVal : Nat → List Char → Option (Json × List Char)
  | 0, _ => none
  | f + 1, cs =>
    match skipJWs cs with
    | [] => none
    | c :: rest =>
      if c == 'n' then
        match rest with
        | 'u' :: 'l' :: 'l' :: r => some (.null, r)
        | _ => none
      else if c == 't' then
        match rest with
        | 'r' :: 'u' :: 'e' :: r => some (.bool true, r)
        | _ => none
      else if c == 'f' then
        match rest with
        | 'a' :: 'l' :: 's' :: 'e' :: r => some (.bool false, r)
        | _ => none
      else if c == '"' then
        match parseJString (c :: rest) with
        | none => none
        | some (s, r) => some (.str s, r)
      else if c == '[' then
        match skipJWs rest with
        | ']' :: r => some (.arr [], r)
        | r =>
          match parseArrItems (parseVal f) (r.length + 1) [] r with
          | none => none
          | some (xs, r2) => some (.arr xs, r2)
      else if c == lbrace then
        match skipJWs rest with
        | d :: r =>
          if d == rbrace then some (.obj [], r)
          else
            match parseObjItems (parseVal f) (rest.length + 1) [] (d :: r) with
            | none => none
            | some (fs, r2) => some (.obj fs, r2)
        | [] => none
      else
        match parseJNum (c :: rest) with
        | none => none
        | some ((m, e), r) => some (.num m e, r)

/-- `JSON.parse` on a character list: one value, only whitespace around it. -/
def parseJsonL (cs : List Char) : Option Json :=
  match parseVal (4 * cs.length + 16) cs with
  | none => none
  | some (v, rest) => if skipJWs rest = [] then some v else none

/-- `JSON.parse` on a `String`. -/
def parseJson (s : String) : Option Json := parseJsonL s.data

/-! ## `extractJson` (services/geminiService.ts, lines 106-178)

The regex `/```(?:json)?\s*([\s\S]*?)```/gi` is modelled by an explicit scan:
at each opening fence the optional case-insensitive `json` tag is consumed,
then the maximal whitespace run, then the lazily-matched group runs to the
first closing fence; scanning resumes after the closing fence.  If an opening
fence has no closing fence the whole regex has no further match (the only
characters between the opening fence and the group are `json`/whitespace, so
no later opening can close either). -/

/-- The three-backtick fence delimiter. -/
def fence3 : List Char := [btick, btick, btick]

/-- Consume the optional case-insensitive `json` tag after an opening fence. -/
def dropJsonTag (cs : List Char) : List Char :=
  match cs with
  | a :: b :: c :: d :: rest =>
    if a.toLower == 'j' && b.toLower == 's' && c.toLower == 'o' && d.toLower == 'n' then
      rest
    else cs
  | _ => cs

/-- All groups captured by the fenced-code-block regex, in match order. -/
def fencedGroupsAux : Nat → List Char → List (List Char)
  | 0, _ => []
  | f + 1, cs =>
    match splitFirstSub fence3 cs with
    | none => []
    | some (_, afterOpen) =>
      let bodyStart := (dropJsonTag afterOpen).dropWhile isJsSpace
      match splitFirstSub fence3 bodyStart with
      | none => []
      | some (grp, afterClose) => grp :: fencedGroupsAux f afterClose

/-- Groups of `/```(?:json)?\s*([\s\S]*?)```/gi` via `matchAll`. -/
def fencedGroups (cs : List Char) : List (List Char) :=
  fencedGroupsAux cs.length cs

/-- Group of `/```(?:json)?\s*([\s\S]*)/i`: everything after the first opening
fence, tag and whitespace — present whenever an opening fence exists. -/
def unclosedGroup (cs : List Char) : Option (List Char) :=
  match splitFirstSub fence3 cs with
  | none => none
  | some (_, afterOpen) => some ((dropJsonTag afterOpen).dropWhile isJsSpace)

/-- Try to parse each fenced group, from the last to the first. -/
def tryGroupsFromLast (gs : List (List Char)) : Option Json :=
  match gs.reverse.findSome? parseJsonL with
  | some v => some v
  | none => none

/-- Step 3 of the cascade: the outermost `{...}` or `[...]` span of the
trimmed text (source lines 146-162), `none` when the source's
`startIdx`/`endIdx` guard fails. -/
def bracketSpan (t : List Char) : Option (List Char) :=
  let fb := idxOfChar t lbrace
  let fk := idxOfChar t '['
  match fb, fk with
  | some b, some k =>
    if b < k then
      match lastIdxOfChar t rbrace with
      | none => none
      | some e => some (jsSubstring t b (e + 1))
    else
      match lastIdxOfChar t ']' with
      | none => none
      | some e => some (jsSubstring t k (e + 1))
  | some b, none =>
    match lastIdxOfChar t rbrace with
    | none => none
    | some e => some (jsSubstring t b (e + 1))
  | none, some k =>
    match lastIdxOfChar t ']' with
    | none => none
    | some e => some (jsSubstring t k (e + 1))
  | none, none => none

/-- Step 4's lightweight repair (source lines 165-171): newlines/tabs to
spaces, double every backslash, then undo the doubling before a quote and
before `n`. -/
def repairCandidate (cand : List Char) : List Char :=
  let s1 := cand.map (fun c => if c == '\n' || c == '\r' || c == '\t' then ' ' else c)
  let s2 := s1.flatMap (fun c => if c == '\\' then ['\\', '\\'] else [c])
  let s3 := replaceAllSub ['\\', '\\', '"'] ['\\', '"'] s2
  replaceAllSub ['\\', '\\', 'n'] ['\\', 'n'] s3

/-- Strategy 1: parse the whole text directly. -/
def stratDirect (cs : List Char) : Option Json := parseJsonL cs

/-- Strategy 2: complete fenced blocks, tried from the last (only when at
least one complete block exists). -/
def stratFenced (t : List Char) : Option Json :=
  if fencedGroups t ≠ [] then tryGroupsFromLast (fencedGroups t) else none

/-- Strategy 2b: unclosed fence — trim the group, cut at the last `}` and
parse, else parse the trimmed group as-is (only when no complete block
exists). -/
def stratUnclosed (t : List Char) : Option Json :=
  if fencedGroups t = [] then
    match unclosedGroup t with
    | none => none
    | some g =>
      match (match lastIdxOfChar (jsTrim g) rbrace with
             | none => none
             | some i => parseJsonL ((jsTrim g).take (i + 1))) with
      | some v => some v
      | none => parseJsonL (jsTrim g)
  else none

/-- Strategy 3: parse the outermost bracket span as-is. -/
def stratBracket (t : List Char) : Option Json :=
  match bracketSpan t with
  | none => none
  | some cand => parseJsonL cand

/-- Strategy 4: parse the repaired bracket span. -/
def stratRepair (t : List Char) : Option Json :=
  match bracketSpan t with
  | none => none
  | some cand => parseJsonL (repairCandidate cand)

/-- Result of `extractJson`: a value, JS `null` (for falsy input), or the
thrown `Fatal JSON Error` message. -/
inductive ExtractResult where
  | ok (v : Json) : ExtractResult
  | nullResult : ExtractResult
  | malformed (msg : String) : ExtractResult

/-- The message thrown when every strategy fails, carrying the first 100
characters of the original text. -/
def fatalJsonMsg (text : String) : String :=
  "Fatal JSON Error. Raw Text Snippet: " ++
    String.mk (jsSubstring text.data 0 100) ++ "..."

/-- `extractJson` (source lines 106-178): the full cascade. -/
def extractJson (text : String) : ExtractResult :=
  if text.data = [] then .nullResult
  else
    match stratDirect text.data with
    | some v => .ok v
    | none =>
      match stratFenced (jsTrim text.data) with
      | some v => .ok v
      | none =>
        match stratUnclosed (jsTrim text.data) with
        | some v => .ok v
        | none =>
          match stratBracket (jsTrim text.data) with
          | some v => .ok v
          | none =>
            match stratRepair (jsTrim text.data) with
            | some v => .ok v
            | none => .malformed (fatalJsonMsg text)

/-! ## JS object enumeration (`Object.entries` / `Object.keys`)

Own-property order: array-index-like keys first in ascending numeric order,
then string keys in insertion order.  `Object.entries` of an array or a
string enumerates index/element pairs; of a number or boolean it is empty. -/

/-- Numeric value of a digit string. -/
def keyVal (s : String) : Nat := digitsToNat s.data

/-- Whether a key is an array index in the ECMAScript sense: the canonical
decimal form of an integer below `2^32 - 1`. -/
def isIndexKey (s : String) : Bool :=
  !s.data.isEmpty && s.data.all Char.isDigit &&
  (s == "0" || s.data.head? != some '0') &&
  keyVal s < 4294967295

/-- Insert into a list sorted ascending by `keyVal` of the key. -/
def insertByKeyVal (p : String × Json) :
    List (String × Json) → List (String × Json)
  | [] => [p]
  | q :: rest =>
    if keyVal p.1 ≤ keyVal q.1 then p :: q :: rest
    else q :: insertByKeyVal p rest

/-- Reorder object fields into JS own-property order. -/
def orderFields (fs : List (String × Json)) : List (String × Json) :=
  let idxs := fs.filter (fun p => isIndexKey p.1)
  let rest := fs.filter (fun p => !isIndexKey p.1)
  (idxs.foldl (fun acc p => insertByKeyVal p acc) []) ++ rest

/-- `Object.entries` of a parsed JSON value. -/
def jsEntries : Json → List (String × Json)
  | .obj fs => orderFields fs
  | .arr xs => xs.enum.map (fun p => (toString p.1, p.2))
  | .str s => s.data.enum.map (fun p => (toString p.1, Json.str (String.mk [p.2])))
  | _ => []

/-! ## Data model (types.ts) and the content-injection agent
(services/geminiService.ts, lines 428-588)

Sections are addressed by their position in the outline list; the source's
chapter grouping stores aliases into the outline array, which positions model
exactly.  `content` holds only strings (a non-string value makes the write
site throw before assigning), while `visuals` receives whatever JSON value
the response carried, hence `Option Json`. -/

/-- A section of the outline (types.ts `ThesisSection`). -/
structure ThesisSection where
  id : String
  title : String
  level : Nat
  content : Option String := none
  visuals : Option Json := none

/-- Default section used by the total indexers (never reached on the indices
produced by `chaptersOf`). -/
def dummySection : ThesisSection := { id := "", title := "", level := 0 }

/-- Section at position `i`. -/
def sget (st : List ThesisSection) (i : Nat) : ThesisSection :=
  st.getD i dummySection

/-- A chapter: the position of its level-1 root and the positions of its
contiguous deeper-level children. -/
structure Chapter where
  root : Nat
  children : List Nat

/-- Chapter grouping (source lines 440-451): a level-1 section opens a
chapter; deeper sections join the current chapter; sections before the first
level-1 section are dropped. -/
def chaptersOfAux : Option (Nat × List Nat) → List (Nat × ThesisSection) → List Chapter
  | none, [] => []
  | some (r, cs), [] => [⟨r, cs.reverse⟩]
  | cur, (i, s) :: rest =>
    if s.level = 1 then
      match cur with
      | none => chaptersOfAux (some (i, [])) rest
      | some (r, cs) => ⟨r, cs.reverse⟩ :: chaptersOfAux (some (i, [])) rest
    else
      match cur with
      | none => chaptersOfAux none rest
      | some (r, cs) => chaptersOfAux (some (r, i :: cs)) rest

/-- All chapters of an outline. -/
def chaptersOf (st : List ThesisSection) : List Chapter :=
  chaptersOfAux none st.enum

/-- `sectionsToProcess` (source line 530): the children, or the root alone. -/
def sectionsToProcess (ch : Chapter) : List Nat :=
  if ch.children = [] then [ch.root] else ch.children

/-- Agent-name check for visuals mode (source line 453). -/
def isVisualsAgent (name : String) : Bool :=
  containsSubS name "视觉" || containsSubS name "Visuals" ||
  containsSubS name "Visuals Fix"

/-- Agent-name check for architect mode (source line 607). -/
def isArchitectAgent (name : String) : Bool :=
  containsSubS name "架构师" || containsSubS name "Architect"

/-- The visuals denylist (source line 522). -/
def skipKeywords : List String :=
  ["摘要", "Abstract", "致谢", "Acknowledgement", "参考", "Reference",
   "附录", "Appendix", "目录", "总结", "Conclusion", "展望", "Outlook"]

/-- Whether a chapter-root title matches the denylist (source lines 523-524). -/
def titleDenylisted (title : String) : Bool :=
  skipKeywords.any (fun k =>
    containsSub (jsToLower title.data) (jsToLower k.data))

/-- `!s.content || s.content.trim() === ''` (source line 538). -/
def isMissingContent (s : ThesisSection) : Bool :=
  match s.content with
  | none => true
  | some c => c == "" || jsTrimS c == ""

/-- TypeError message raised by `.trim()` on a non-string visuals value. -/
def visualsTrimTypeError : String := "s.visuals.trim is not a function"

/-- `!s.visuals || s.visuals.trim() === ''` (source line 537); a truthy
non-string visuals value makes `.trim()` throw. -/
def isMissingVisuals (s : ThesisSection) : Except String Bool :=
  match s.visuals with
  | none => .ok true
  | some v =>
    if !v.truthy then .ok true
    else
      match v with
      | .str sv => .ok (jsTrimS sv == "")
      | _ => .error visualsTrimTypeError

/-- The `every` callback of the only-missing check for one section. -/
def isMissingTarget (isVis : Bool) (s : ThesisSection) : Except String Bool :=
  if isVis then isMissingVisuals s else .ok (isMissingContent s)

/-- `sectionsToProcess.every(...)` (source lines 536-539): short-circuits on
the first `false`; a thrown TypeError propagates. -/
def allMissing (isVis : Bool) (st : List ThesisSection) :
    List Nat → Except String Bool
  | [] => .ok true
  | i :: rest =>
    match isMissingTarget isVis (sget st i) with
    | .error m => .error m
    | .ok false => .ok false
    | .ok true => allMissing isVis st rest

/-- TypeError message raised by `.trim()` on a non-string content value. -/
def contentTrimTypeError : String := "contentStr.trim is not a function"

/-- Heading stripping of a content value (source lines 506-508): when the
trimmed value starts with `#`, apply `replace(/^#[^\n]*\n/, '')` to the raw
value and trim the result. -/
def contentTransform (v : String) : String :=
  if (jsTrim v.data).head? == some '#' then
    String.mk (jsTrim (stripHeadingLine v.data))
  else v
where
  /-- `replace(/^#[^\n]*\n/, '')`: drop through the first newline when the
  string starts with `#` and a newline exists. -/
  stripHeadingLine (s : List Char) : List Char :=
    match s with
    | c :: rest =>
      if c = '#' then
        match idxOfChar rest '\n' with
        | some k => rest.drop (k + 1)
        | none => c :: rest
      else c :: rest
    | [] => []

/-- Write one parsed response entry (source lines 499-511): look the key up
over the whole outline; in visuals mode store the raw value, in content mode
a non-string value throws, a string is heading-stripped and stored. -/
def applyEntry (isVis : Bool) (st : List ThesisSection) (kv : String × Json) :
    Except String (List ThesisSection) :=
  match st.findIdx? (fun s => s.id == kv.1) with
  | none => .ok st
  | some i =>
    if isVis then .ok (st.set i { sget st i with visuals := some kv.2 })
    else
      match kv.2 with
      | .str v =>
        .ok (st.set i { sget st i with content := some (contentTransform v) })
      | _ => .error contentTrimTypeError

/-- Fold the entry writes over the outline. -/
def applyEntries (isVis : Bool) : List ThesisSection → List (String × Json) →
    Except String (List ThesisSection)
  | st, [] => .ok st
  | st, kv :: rest =>
    match applyEntry isVis st kv with
    | .error m => .error m
    | .ok st2 => applyEntries isVis st2 rest

/-- `if (partialContent) { for ... }` (source lines 498-513). -/
def applyParsed (isVis : Bool) (st : List ThesisSection) (v : Json) :
    Except String (List ThesisSection) :=
  if v.truthy then applyEntries isVis st (jsEntries v) else .ok st

/-- State threaded through a generation pass: how many Model Gateway calls
happened so far, and the current outline. -/
structure GenState where
  calls : Nat
  sections : List ThesisSection

/-- One `processBatch` invocation (source lines 456-514): one gateway call
(the environment `oracle` maps the call index to the response text or a
thrown gateway-error message), then `extractJson`, then the entry writes.
Returns the state after the call together with the thrown message, if any;
on a throw the outline is unchanged (`extractJson` throws before any write,
and a write-loop TypeError always aborts the whole agent, discarding the
outline). -/
def processBatchStep (oracle : Nat → Except String String) (isVis : Bool)
    (g : GenState) : GenState × Option String :=
  match oracle g.calls with
  | .error m => (⟨g.calls + 1, g.sections⟩, some m)
  | .ok text =>
    match extractJson text with
    | .malformed m => (⟨g.calls + 1, g.sections⟩, some m)
    | .nullResult => (⟨g.calls + 1, g.sections⟩, none)
    | .ok v =>
      match applyParsed isVis g.sections v with
      | .error m => (⟨g.calls + 1, g.sections⟩, some m)
      | .ok st2 => (⟨g.calls + 1, st2⟩, none)

/-- Error classification of the whole-chapter catch (source line 557). -/
def isJsonErrMsg (m : String) : Bool :=
  containsSubS m "Fatal JSON Error" || containsSubS m "JSON" ||
  containsSubS m "SyntaxError"

/-- Error classification of the sub-batch retry catch (source line 573):
a message with neither `JSON` nor `Syntax` is critical and rethrown. -/
def isRetrySkippable (m : String) : Bool :=
  containsSubS m "JSON" || containsSubS m "Syntax"

/-- `Math.ceil(n / 3)`. -/
def ceilDiv3 (n : Nat) : Nat := (n + 2) / 3

/-- The slicing loop of the split path (source lines 561-565). -/
def chunkAux (k : Nat) : Nat → List Nat → List (List Nat)
  | _, [] => []
  | 0, l => [l]
  | f + 1, l => l.take k :: chunkAux k f (l.drop k)

/-- Split a chapter's section list into chunks of size `ceil(n/3)`. -/
def chunkSections (idxs : List Nat) : List (List Nat) :=
  chunkAux (ceilDiv3 idxs.length) idxs.length idxs

/-- The sub-batch retry loop (source lines 568-579): one `processBatch` per
chunk; a JSON-classified failure is logged and skipped, anything else is
rethrown. -/
def retryChunks (oracle : Nat → Except String String) (isVis : Bool) :
    GenState → List (List Nat) → Except String GenState
  | g, [] => .ok g
  | g, _ :: rest =>
    match processBatchStep oracle isVis g with
    | (g2, none) => retryChunks oracle isVis g2 rest
    | (g2, some m) =>
      if isRetrySkippable m then retryChunks oracle isVis g2 rest
      else .error m

/-- Processing of one chapter (source lines 517-585): visuals denylist skip,
only-missing skip, whole-chapter batch, and on a JSON-classified failure the
split-and-retry path; critical errors propagate. -/
def runChapterStep (oracle : Nat → Except String String)
    (isVis onlyMissing : Bool) (g : GenState) (ch : Chapter) :
    Except String GenState :=
  if isVis && titleDenylisted (sget g.sections ch.root).title then .ok g
  else
    match (if onlyMissing then
             allMissing isVis g.sections (sectionsToProcess ch)
           else .ok true) with
    | .error m => .error m
    | .ok allMiss =>
      if onlyMissing && !allMiss then .ok g
      else
        match processBatchStep oracle isVis g with
        | (g2, none) => .ok g2
        | (g2, some m) =>
          if isJsonErrMsg m then
            retryChunks oracle isVis g2 (chunkSections (sectionsToProcess ch))
          else .error m

/-- Sequential chapter loop (source line 517). -/
def runChapters (oracle : Nat → Except String String)
    (isVis onlyMissing : Bool) : GenState → List Chapter →
    Except String GenState
  | g, [] => .ok g
  | g, ch :: rest =>
    match runChapterStep oracle isVis onlyMissing g ch with
    | .error m => .error m
    | .ok g2 => runChapters oracle isVis onlyMissing g2 rest

/-- `runContentInjectionAgent` (source lines 428-588).  The deep copy of the
outline is the identity on this pure model; the call counter is ghost
instrumentation counting Model Gateway invocations. -/
def runContentInjectionAgent (oracle : Nat → Except String String)
    (agentName : String) (onlyMissing : Bool) (st : List ThesisSection) :
    Except String GenState :=
  runChapters oracle (isVisualsAgent agentName) onlyMissing ⟨0, st⟩ (chaptersOf st)

/-! ## `regenerateSpecificSections` (source lines 591-698) -/

/-- TypeError message raised by `.startsWith()` on a non-string title value. -/
def titleStartsTypeError : String := "newTitle.startsWith is not a function"

/-- Architect-mode replacement title (source lines 674-679): prefix the
level's `#` markers when the new title lacks them. -/
def regenTitle (lvl : Nat) (v : String) : String :=
  if v.startsWith "#" then v
  else String.mk (List.replicate lvl '#') ++ " " ++ v

/-- Write one parsed entry in regeneration mode (source lines 669-689):
architect mode replaces the title (prefixing `#` markers when absent),
otherwise the write is the same as in `applyEntry`. -/
def applyRegenEntry (isArch isVis : Bool) (st : List ThesisSection)
    (kv : String × Json) : Except String (List ThesisSection) :=
  match st.findIdx? (fun s => s.id == kv.1) with
  | none => .ok st
  | some i =>
    if isArch then
      match kv.2 with
      | .str v =>
        .ok (st.set i { sget st i with title := regenTitle (sget st i).level v })
      | _ => .error titleStartsTypeError
    else if isVis then .ok (st.set i { sget st i with visuals := some kv.2 })
    else
      match kv.2 with
      | .str v =>
        .ok (st.set i { sget st i with content := some (contentTransform v) })
      | _ => .error contentTrimTypeError

/-- Fold the regeneration writes over the outline. -/
def applyRegenEntries (isArch isVis : Bool) : List ThesisSection →
    List (String × Json) → Except String (List ThesisSection)
  | st, [] => .ok st
  | st, kv :: rest =>
    match applyRegenEntry isArch isVis st kv with
    | .error m => .error m
    | .ok st2 => applyRegenEntries isArch isVis st2 rest

/-- `regenerateSpecificSections` (source lines 591-698): filter the outline
to the requested ids (no call at all when none match), one gateway call,
`extractJson`, then the writes; any throw inside the `try` is wrapped as
`Regeneration failed: ...`. -/
def regenerateSpecificSections (response : Except String String)
    (agentName : String) (ids : List String) (st : List ThesisSection) :
    Except String (List ThesisSection) :=
  if (st.filter (fun s => ids.contains s.id)).isEmpty then .ok st
  else
    let isVis := isVisualsAgent agentName
    let isArch := isArchitectAgent agentName
    match response with
    | .error m => .error ("Regeneration failed: " ++ m)
    | .ok text =>
      match extractJson text with
      | .malformed m => .error ("Regeneration failed: " ++ m)
      | .nullResult => .ok st
      | .ok v =>
        if v.truthy then
          match applyRegenEntries isArch isVis st (jsEntries v) with
          | .error m => .error ("Regeneration failed: " ++ m)
          | .ok st2 => .ok st2
        else .ok st

/-! ## `runArchitectAgent` (source lines 352-426) -/

/-- The error `runArchitectAgent` surfaces when no structure can be
extracted (source line 424). -/
def architectFailMsg : String :=
  "Architect failed to generate structure. Model output was not valid JSON."

/-- TypeError message for property access on `null`. -/
def nullPropTypeError : String := "Cannot read properties of null"

/-- JS property access `v[k]` as used on candidate section objects:
throws on `null`, `undefined` (`none`) on every non-object. -/
def jsGetProp (v : Json) (k : String) : Except String (Option Json) :=
  match v with
  | .null => .error nullPropTypeError
  | .obj fs => .ok (jsField fs k)
  | _ => .ok none

/-- Truthiness of a possibly-undefined property value. -/
def propTruthy : Option Json → Bool
  | none => false
  | some v => v.truthy

/-- The key scan (source lines 407-415): the first key holding a non-empty
array whose first element has a truthy `title` or `id`; `.title` on a null
element throws. -/
def architectScan : List (String × Json) → Except String (List Json)
  | [] => .ok []
  | (_, v) :: rest =>
    match v with
    | .arr (e0 :: es) =>
      match jsGetProp e0 "title" with
      | .error m => .error m
      | .ok t =>
        if propTruthy t then .ok (e0 :: es)
        else
          match jsGetProp e0 "id" with
          | .error m => .error m
          | .ok i =>
            if propTruthy i then .ok (e0 :: es) else architectScan rest
    | _ => architectScan rest

/-- Shape dispatch of the parsed response (source lines 401-417): a bare
array, an object with a `sections` array, or the key scan; a falsy parsed
value yields the empty structure. -/
def architectPick (parsed : Json) : Except String (List Json) :=
  if parsed.truthy then
    match parsed with
    | .arr xs => .ok xs
    | _ =>
      match (match parsed with
             | .obj fs => jsField fs "sections"
             | _ => none) with
      | some (.arr ys) => .ok ys
      | _ => architectScan (jsEntries parsed)
  else .ok []

/-- The `try` block of `runArchitectAgent` (source lines 397-421): extract,
dispatch on shape, and throw when the structure is empty. -/
def architectInner (text : String) : Except String (List Json) :=
  match extractJson text with
  | .malformed m => .error m
  | .nullResult =>
    -- parsed is `null`, falsy: the structure stays empty and line 419 throws
    .error "No structure found"
  | .ok parsed =>
    match architectPick parsed with
    | .error m => .error m
    | .ok l => if l.isEmpty then .error "No structure found" else .ok l

/-- `runArchitectAgent` response handling (source lines 396-425): the gateway
call is outside the `try`, so a gateway error propagates verbatim; any error
inside the `try` is replaced by `architectFailMsg`. -/
def runArchitectAgent (response : Except String String) :
    Except String (List Json) :=
  match response with
  | .error m => .error m
  | .ok text =>
    match architectInner text with
    | .error _ => .error architectFailMsg
    | .ok l => .ok l

/-! ## Gateway error taxonomy (`callLLM`, source lines 180-294)

`callLLM` performs no retry; each failure is thrown with a fixed message,
which is all the chapter loop's string-based classification ever sees. -/

/-- The gateway-layer error kinds named by the specification. -/
inductive GatewayErrorKind where
  | unauthorized | notFound | networkError | timeout | rateLimited
  | emptyResponse

/-- The exact message `callLLM` throws for each kind (source lines 231-232,
244, 247, 238, 290). -/
def gwMessage : GatewayErrorKind → String
  | .unauthorized => "401 Unauthorized. Check API Key."
  | .notFound => "404 Not Found. Check Base URL."
  | .networkError =>
    "Network Error: Could not connect to Custom API. Check CORS settings or Base URL."
  | .timeout => "Request timed out (>15 mins). The model took too long to think."
  | .rateLimited =>
    "Gemini API Quota Exceeded (429). Please switch to Custom API in settings."
  | .emptyResponse => "Custom API returned empty content"

/-- The ids of an outline, in order. -/
def idsOf (st : List ThesisSection) : List String :=
  st.map (fun s => s.id)

/-- `st2` preserves ids everywhere and is untouched at every position whose
id belongs to `P`. -/
def framePres (P : List String) (st st2 : List ThesisSection) : Prop :=
  idsOf st2 = idsOf st ∧
  ∀ (i : Nat) (s : ThesisSection),
    st[i]? = some s → s.id ∈ P → st2[i]? = st[i]?

/-- Hypothesis that no response the environment can ever return maps an id
of the protected set `P`. -/
def oracleAvoids (oracle : Nat → Except String String) (P : List String) : Prop :=
  ∀ (n : Nat) (t : String) (v : Json), oracle n = .ok t →
    extractJson t = .ok v → ∀ e ∈ jsEntries v, e.1 ∉ P

/-- Position `i` holds non-blank content. -/
def populatedAt (st : List ThesisSection) (i : Nat) : Bool :=
  !isMissingContent (sget st i)

/-- `st2` agrees with `st` on ids, and differs at most at positions of `B`,
where it holds a section with non-blank content. -/
def inBatchWrites (B : List Nat) (st st2 : List ThesisSection) : Prop :=
  idsOf st2 = idsOf st ∧
  ∀ i : Nat, st2[i]? = st[i]? ∨
    (i ∈ B ∧ ∃ s2 : ThesisSection, st2[i]? = some s2 ∧
      isMissingContent s2 = false)

/-! ## Concrete scenarios used by the claims -/

/-- A chapter of nine sections, none filled (C1 scenario). -/
def c1Outline : List ThesisSection :=
  ⟨"r", "# Ch1", 1, none, none⟩ ::
  (List.range 9).map
    (fun i => ⟨"s" ++ toString (i + 1), "Sec", 2, none, none⟩)

/-- Environment for the C1 scenario: the whole-chapter call returns
unparseable text, the three sub-batch calls return the exact id-to-text
mapping of their three requested sections. -/
def c1Oracle : Nat → Except String String
  | 0 => .ok "BAD ???"
  | 1 => .ok "\x7b\"s1\":\"c1\",\"s2\":\"c2\",\"s3\":\"c3\"\x7d"
  | 2 => .ok "\x7b\"s4\":\"c4\",\"s5\":\"c5\",\"s6\":\"c6\"\x7d"
  | 3 => .ok "\x7b\"s7\":\"c7\",\"s8\":\"c8\",\"s9\":\"c9\"\x7d"
  | _ => .error "unused"

/-- The C1 scenario outcome: all nine sections filled. -/
def c1Expected : List ThesisSection :=
  ⟨"r", "# Ch1", 1, none, none⟩ ::
  (List.range 9).map
    (fun i => ⟨"s" ++ toString (i + 1), "Sec", 2,
      some ("c" ++ toString (i + 1)), none⟩)

/-- Two chapters: the first completely empty, the second with one filled and
one empty section (C5 counterexample). -/
def c5Outline : List ThesisSection :=
  [⟨"r1", "# Ch1", 1, none, none⟩, ⟨"a", "S", 2, none, none⟩,
   ⟨"r2", "# Ch2", 1, none, none⟩, ⟨"b", "S", 2, some "x", none⟩,
   ⟨"c", "S", 2, none, none⟩]

/-- Environment for the C5 counterexample: the one call made (for the empty
first chapter) answers with the id of the second chapter's empty section. -/
def c5Oracle : Nat → Except String String
  | 0 => .ok "\x7b\"c\":\"hacked\"\x7d"
  | _ => .error "unused"

/-- One chapter of three sections, one filled and two empty (the claim's
`in particular` instance for C5). -/
def c5OneChapter : List ThesisSection :=
  [⟨"r", "# Ch", 1, none, none⟩, ⟨"a", "S", 2, some "x", none⟩,
   ⟨"b", "S", 2, none, none⟩, ⟨"c", "S", 2, none, none⟩]

/-- Two chapters, the first's single child filled, the second's empty
(C6 counterexample). -/
def c6Outline : List ThesisSection :=
  [⟨"r1", "# Ch1", 1, none, none⟩, ⟨"a", "S", 2, some "old", none⟩,
   ⟨"r2", "# Ch2", 1, none, none⟩, ⟨"b", "S", 2, none, none⟩]

/-- Environment for the C6 counterexample: the batch response names a
section outside the requested batch. -/
def c6Oracle : Nat → Except String String :=
  fun _ => .ok "\x7b\"b\":\"y\"\x7d"

/-- A single section titled 参考文献 (References), C7 counterexample. -/
def c7Outline : List ThesisSection :=
  [⟨"r", "参考文献", 1, none, none⟩]

/-- A single section outline for the C6 witness and C9 counterexample. -/
def c9Outline : List ThesisSection :=
  [⟨"a", "引言", 2, none, none⟩]

/-! ## Helper lemmas -/

theorem containsSub_infix_iff {hay pat : List Char} :
    containsSub hay pat = true ↔ pat <:+: hay := by
  simp only [containsSub, List.any_eq_true, List.mem_tails,
    List.isPrefixOf_iff_prefix, List.infix_iff_prefix_suffix]
  exact ⟨fun ⟨t, hs, hp⟩ => ⟨t, hp, hs⟩, fun ⟨t, hp, hs⟩ => ⟨t, hs, hp⟩⟩

theorem containsSubS_append_left {a b pat : String}
    (h : containsSubS a pat = true) : containsSubS (a ++ b) pat = true := by
  simp only [containsSubS] at *
  rw [containsSub_infix_iff] at *
  exact h.trans ⟨[], b.data, by simp⟩

theorem fatalJsonMsg_hasJSON (t : String) :
    containsSubS (fatalJsonMsg t) "JSON" = true := by
  have h1 : containsSubS "Fatal JSON Error. Raw Text Snippet: " "JSON" = true := by decide
  have h2 := containsSubS_append_left
    (b := String.mk (jsSubstring t.data 0 100) ++ "...") h1
  simpa [fatalJsonMsg, String.append_assoc] using h2

theorem isJsonErrMsg_fatal (t : String) : isJsonErrMsg (fatalJsonMsg t) = true := by
  simp [isJsonErrMsg, fatalJsonMsg_hasJSON]

theorem isRetrySkippable_fatal (t : String) :
    isRetrySkippable (fatalJsonMsg t) = true := by
  simp [isRetrySkippable, fatalJsonMsg_hasJSON]

theorem extractJson_malformed_eq {t m : String}
    (h : extractJson t = .malformed m) : m = fatalJsonMsg t := by
  unfold extractJson at h
  split at h
  · cases h
  · split at h
    · cases h
    · split at h
      · cases h
      · split at h
        · cases h
        · split at h
          · cases h
          · split at h
            · cases h
            · exact (ExtractResult.malformed.inj h).symm

theorem findIdx?_found {α : Type _} (p : α → Bool) (d : α) :
    ∀ (l : List α) (j : Nat), l.findIdx? p = some j →
      j < l.length ∧ p (l.getD j d) = true := by
  intro l
  induction l with
  | nil => intro j h; simp at h
  | cons x xs ih =>
    intro j h
    rw [List.findIdx?_cons] at h
    by_cases hp : p x
    · rw [if_pos hp] at h
      cases h
      exact ⟨Nat.succ_pos _, hp⟩
    · rw [if_neg hp, List.findIdx?_start_succ] at h
      match hj : xs.findIdx? p 0 with
      | none => rw [hj] at h; cases h
      | some j2 =>
        rw [hj] at h
        have h2 : some (j2 + (0 + 1)) = some j := h
        cases h2
        have := ih j2 hj
        have hlen : (x :: xs).length = xs.length + 1 := rfl
        exact ⟨by omega, by simpa using this.2⟩

/-! ## Frame machinery: response writes touch only matched ids -/

theorem framePres_refl (P : List String) (st : List ThesisSection) :
    framePres P st st :=
  ⟨rfl, fun _ _ _ _ => rfl⟩

theorem framePres_trans {P : List String} {st st2 st3 : List ThesisSection}
    (h1 : framePres P st st2) (h2 : framePres P st2 st3) :
    framePres P st st3 := by
  refine ⟨h1.1 ▸ h2.1, fun i s hs hp => ?_⟩
  have e1 := h1.2 i s hs hp
  have e2 := h2.2 i s (e1.trans hs) hp
  rw [e2, e1]

theorem applyEntry_ids {isVis : Bool} {st st2 : List ThesisSection}
    {kv : String × Json} (h : applyEntry isVis st kv = .ok st2) :
    idsOf st2 = idsOf st := by
  unfold applyEntry at h
  split at h
  · cases h; rfl
  next i hfind =>
    have hfound := findIdx?_found (fun s => s.id == kv.1) dummySection st i hfind
    have hget : st[i]? = some (sget st i) := by
      simp [sget, List.getD_eq_getElem?_getD,
        List.getElem?_eq_getElem hfound.1]
    have hsets : ∀ s' : ThesisSection, s'.id = (sget st i).id →
        idsOf (st.set i s') = idsOf st := by
      intro s' hid
      apply List.ext_getElem?
      intro j
      simp only [idsOf, List.getElem?_map]
      by_cases hij : i = j
      · subst hij
        rw [List.getElem?_set_self (by simpa using hfound.1), hget]
        simp [hid]
      · rw [List.getElem?_set_ne hij]
    split at h
    · cases h; exact hsets _ rfl
    · split at h
      · cases h; exact hsets _ rfl
      · cases h

theorem applyEntry_frame {P : List String} {isVis : Bool}
    {st st2 : List ThesisSection} {kv : String × Json}
    (h : applyEntry isVis st kv = .ok st2) (hk : kv.1 ∉ P) :
    framePres P st st2 := by
  refine ⟨applyEntry_ids h, fun i s hs hp => ?_⟩
  unfold applyEntry at h
  split at h
  · cases h; rfl
  next j hfind =>
    have hfound := findIdx?_found (fun s => s.id == kv.1) dummySection st j hfind
    have hij : j ≠ i := by
      intro he
      subst he
      have hgd : st.getD j dummySection = s := by
        simp [List.getD_eq_getElem?_getD, hs]
      rw [hgd] at hfound
      have hid : s.id = kv.1 := by simpa using hfound.2
      exact hk (hid ▸ hp)
    have hset : ∀ s' : ThesisSection, (st.set j s')[i]? = st[i]? :=
      fun s' => List.getElem?_set_ne hij
    split at h
    · cases h; exact hset _
    · split at h
      · cases h; exact hset _
      · cases h

theorem applyEntries_frame {P : List String} {isVis : Bool} :
    ∀ {es : List (String × Json)} {st st2 : List ThesisSection},
      applyEntries isVis st es = .ok st2 → (∀ e ∈ es, e.1 ∉ P) →
      framePres P st st2 := by
  intro es
  induction es with
  | nil =>
    intro st st2 h _
    cases h
    exact framePres_refl P st
  | cons e rest ih =>
    intro st st2 h hk
    unfold applyEntries at h
    split at h
    · cases h
    next stm hstep =>
      have h1 := applyEntry_frame hstep (hk e (List.mem_cons_self e rest))
      have h2 := ih h (fun e2 he2 => hk e2 (List.mem_cons_of_mem e he2))
      exact framePres_trans h1 h2

theorem applyParsed_frame {P : List String} {isVis : Bool}
    {st st2 : List ThesisSection} {v : Json}
    (h : applyParsed isVis st v = .ok st2)
    (hk : ∀ e ∈ jsEntries v, e.1 ∉ P) : framePres P st st2 := by
  unfold applyParsed at h
  split at h
  · exact applyEntries_frame h hk
  · cases h; exact framePres_refl P st

theorem processBatchStep_frame {P : List String} (isVis : Bool)
    {oracle : Nat → Except String String} (hav : oracleAvoids oracle P)
    (g : GenState) :
    framePres P g.sections (processBatchStep oracle isVis g).1.sections := by
  unfold processBatchStep
  split
  · exact framePres_refl P g.sections
  next t hor =>
    split
    · exact framePres_refl P g.sections
    · exact framePres_refl P g.sections
    next v hext =>
      split
      · exact framePres_refl P g.sections
      next st2 happ =>
        exact applyParsed_frame happ (hav g.calls t v hor hext)

theorem retryChunks_frame {P : List String} {isVis : Bool}
    {oracle : Nat → Except String String} (hav : oracleAvoids oracle P) :
    ∀ {chunks : List (List Nat)} {g g2 : GenState},
      retryChunks oracle isVis g chunks = .ok g2 →
      framePres P g.sections g2.sections := by
  intro chunks
  induction chunks with
  | nil =>
    intro g g2 h
    cases h
    exact framePres_refl P g.sections
  | cons c rest ih =>
    intro g g2 h
    unfold retryChunks at h
    have hstep := processBatchStep_frame isVis hav g
    split at h
    next gm hm =>
      have hsec : gm.sections = (processBatchStep oracle isVis g).1.sections := by
        rw [hm]
      rw [← hsec] at hstep
      exact framePres_trans hstep (ih h)
    next gm m hm =>
      split at h
      · have hsec : gm.sections = (processBatchStep oracle isVis g).1.sections := by
          rw [hm]
        rw [← hsec] at hstep
        exact framePres_trans hstep (ih h)
      · cases h

theorem runChapterStep_frame {P : List String} {isVis onlyMissing : Bool}
    {oracle : Nat → Except String String} (hav : oracleAvoids oracle P)
    {g g2 : GenState} {ch : Chapter}
    (h : runChapterStep oracle isVis onlyMissing g ch = .ok g2) :
    framePres P g.sections g2.sections := by
  unfold runChapterStep at h
  split at h
  · cases h; exact framePres_refl P g.sections
  · split at h
    · cases h
    · split at h
      · cases h; exact framePres_refl P g.sections
      · have hstep := processBatchStep_frame isVis hav g
        split at h
        next gm hm =>
          cases h
          have hsec : g2.sections = (processBatchStep oracle isVis g).1.sections := by
            rw [hm]
          rw [← hsec] at hstep
          exact hstep
        next gm m hm =>
          split at h
          · have hsec : gm.sections = (processBatchStep oracle isVis g).1.sections := by
              rw [hm]
            rw [← hsec] at hstep
            exact framePres_trans hstep (retryChunks_frame hav h)
          · cases h

theorem runChapters_frame {P : List String} {isVis onlyMissing : Bool}
    {oracle : Nat → Except String String} (hav : oracleAvoids oracle P) :
    ∀ {chs : List Chapter} {g g2 : GenState},
      runChapters oracle isVis onlyMissing g chs = .ok g2 →
      framePres P g.sections g2.sections := by
  intro chs
  induction chs with
  | nil =>
    intro g g2 h
    cases h
    exact framePres_refl P g.sections
  | cons ch rest ih =>
    intro g g2 h
    unfold runChapters at h
    split at h
    · cases h
    next gm hm =>
      exact framePres_trans (runChapterStep_frame hav hm) (ih h)

theorem runAgent_frame {P : List String} {onlyMissing : Bool}
    {oracle : Nat → Except String String} {agentName : String}
    (hav : oracleAvoids oracle P) {st : List ThesisSection} {g2 : GenState}
    (h : runContentInjectionAgent oracle agentName onlyMissing st = .ok g2) :
    framePres P st g2.sections :=
  runChapters_frame hav h

/-! ## Properties of the splitting loop -/

theorem chunkAux_flatten {k : Nat} (hk : 0 < k) :
    ∀ (f : Nat) (l : List Nat), l.length ≤ f →
      (chunkAux k f l).flatten = l := by
  intro f
  induction f with
  | zero =>
    intro l hl
    have : l = [] := List.eq_nil_of_length_eq_zero (Nat.le_zero.mp hl)
    subst this
    rfl
  | succ f ih =>
    intro l hl
    cases l with
    | nil => rfl
    | cons a as =>
      have hd : (List.drop k (a :: as)).length ≤ f := by
        simp only [List.length_drop]
        have : (a :: as).length = as.length + 1 := rfl
        omega
      simp only [chunkAux, List.flatten_cons, ih _ hd, List.take_append_drop]

theorem chunkAux_count {k : Nat} (hk : 0 < k) :
    ∀ (c f : Nat) (l : List Nat), l.length ≤ f → l.length ≤ c * k →
      (chunkAux k f l).length ≤ c := by
  intro c
  induction c with
  | zero =>
    intro f l hf hl
    have : l = [] := List.eq_nil_of_length_eq_zero (by omega)
    subst this
    cases f <;> simp [chunkAux]
  | succ c ih =>
    intro f l hf hl
    cases l with
    | nil => cases f <;> simp [chunkAux]
    | cons a as =>
      cases f with
      | zero => simp at hf
      | succ f =>
        simp only [chunkAux, List.length_cons]
        have hck : (c + 1) * k = c * k + k := by ring
        have hd : (List.drop k (a :: as)).length ≤ f := by
          simp only [List.length_drop]
          have : (a :: as).length = as.length + 1 := rfl
          omega
        have hd2 : (List.drop k (a :: as)).length ≤ c * k := by
          simp only [List.length_drop]
          rw [hck] at hl
          omega
        have := ih f (List.drop k (a :: as)) hd hd2
        omega

theorem chunkAux_mem {k : Nat} (hk : 0 < k) :
    ∀ (f : Nat) (l : List Nat), l.length ≤ f →
      ∀ c ∈ chunkAux k f l, c ≠ [] ∧ c.length ≤ k := by
  intro f
  induction f with
  | zero =>
    intro l hl c hc
    have : l = [] := List.eq_nil_of_length_eq_zero (Nat.le_zero.mp hl)
    subst this
    simp [chunkAux] at hc
  | succ f ih =>
    intro l hl c hc
    cases l with
    | nil => simp [chunkAux] at hc
    | cons a as =>
      simp only [chunkAux, List.mem_cons] at hc
      rcases hc with hc | hc
      · subst hc
        constructor
        · cases k with
          | zero => omega
          | succ k => simp [List.take]
        · simp only [List.length_take]
          omega
      · have hd : (List.drop k (a :: as)).length ≤ f := by
          simp only [List.length_drop]
          have : (a :: as).length = as.length + 1 := rfl
          omega
        exact ih _ hd c hc

theorem chunkAux_nonlast_size {k : Nat} (hk : 0 < k) :
    ∀ (f : Nat) (l : List Nat), l.length ≤ f →
      ∀ j : Nat, j + 1 < (chunkAux k f l).length →
        ((chunkAux k f l).getD j []).length = k := by
  intro f
  induction f with
  | zero =>
    intro l hl j hj
    have : l = [] := List.eq_nil_of_length_eq_zero (Nat.le_zero.mp hl)
    subst this
    simp [chunkAux] at hj
  | succ f ih =>
    intro l hl j hj
    cases l with
    | nil => simp [chunkAux] at hj
    | cons a as =>
      have hd : (List.drop k (a :: as)).length ≤ f := by
        simp only [List.length_drop]
        have : (a :: as).length = as.length + 1 := rfl
        omega
      cases j with
      | zero =>
        simp only [chunkAux, List.length_cons] at hj
        have hrest : chunkAux k f (List.drop k (a :: as)) ≠ [] := by
          intro he
          rw [he] at hj
          simp at hj
        have hdropne : List.drop k (a :: as) ≠ [] := by
          intro he
          rw [he] at hrest
          cases f <;> simp [chunkAux] at hrest
        have hklt : k < (a :: as).length := by
          by_contra hc
          exact hdropne (List.drop_eq_nil_of_le (by omega))
        simp only [chunkAux, List.getD_cons_zero, List.length_take]
        omega
      | succ j =>
        simp only [chunkAux, List.length_cons] at hj
        simp only [chunkAux, List.getD_cons_succ]
        exact ih _ hd j (by omega)

theorem length_le_three_mul_ceilDiv3 (n : Nat) : n ≤ 3 * ceilDiv3 n := by
  unfold ceilDiv3
  have h1 := Nat.div_add_mod (n + 2) 3
  have h2 : (n + 2) % 3 < 3 := Nat.mod_lt _ (by omega)
  omega

theorem ceilDiv3_pos {n : Nat} (hn : 0 < n) : 0 < ceilDiv3 n := by
  unfold ceilDiv3
  omega

/-- Combined specification of `chunkSections`. -/
theorem chunkSections_spec (idxs : List Nat) (hne : idxs ≠ []) :
    (chunkSections idxs).flatten = idxs ∧
    (chunkSections idxs).length ≤ 3 ∧
    (∀ c ∈ chunkSections idxs, c ≠ [] ∧ c.length ≤ ceilDiv3 idxs.length) ∧
    (∀ j : Nat, j + 1 < (chunkSections idxs).length →
      ((chunkSections idxs).getD j []).length = ceilDiv3 idxs.length) := by
  have hn : 0 < idxs.length := List.length_pos.mpr hne
  have hk : 0 < ceilDiv3 idxs.length := ceilDiv3_pos hn
  refine ⟨chunkAux_flatten hk _ _ (Nat.le_refl _), ?_,
    chunkAux_mem hk _ _ (Nat.le_refl _),
    chunkAux_nonlast_size hk _ _ (Nat.le_refl _)⟩
  exact chunkAux_count hk 3 _ _ (Nat.le_refl _)
    (by simpa [Nat.mul_comm] using length_le_three_mul_ceilDiv3 idxs.length)

/-! ## Behaviour of the batch and retry loops -/

theorem processBatchStep_malformed {oracle : Nat → Except String String}
    {isVis : Bool} {g : GenState} {t m : String}
    (hor : oracle g.calls = .ok t) (hext : extractJson t = .malformed m) :
    processBatchStep oracle isVis g = (⟨g.calls + 1, g.sections⟩, some m) := by
  simp only [processBatchStep, hor, hext]

theorem processBatchStep_gwError {oracle : Nat → Except String String}
    {isVis : Bool} {g : GenState} {m : String}
    (hor : oracle g.calls = .error m) :
    processBatchStep oracle isVis g = (⟨g.calls + 1, g.sections⟩, some m) := by
  simp only [processBatchStep, hor]

theorem processBatchStep_null {oracle : Nat → Except String String}
    {isVis : Bool} {g : GenState} {t : String}
    (hor : oracle g.calls = .ok t) (hext : extractJson t = .nullResult) :
    processBatchStep oracle isVis g = (⟨g.calls + 1, g.sections⟩, none) := by
  simp only [processBatchStep, hor, hext]

/-- When every sub-batch retry call again fails to parse, each chunk is
retried exactly once, each failure is logged and skipped, and the loop ends
successfully with the outline untouched and one extra gateway call per
chunk. -/
theorem retryChunks_allFail {oracle : Nat → Except String String}
    {isVis : Bool} :
    ∀ (chunks : List (List Nat)) (g : GenState),
      (∀ j : Nat, j < chunks.length →
        ∃ t m, oracle (g.calls + j) = .ok t ∧ extractJson t = .malformed m) →
      retryChunks oracle isVis g chunks =
        .ok ⟨g.calls + chunks.length, g.sections⟩ := by
  intro chunks
  induction chunks with
  | nil => intro g _; simp [retryChunks]
  | cons c rest ih =>
    intro g hfail
    obtain ⟨t, m, hor, hext⟩ := hfail 0 (Nat.succ_pos _)
    rw [Nat.add_zero] at hor
    have hskip : isRetrySkippable m = true := by
      rw [extractJson_malformed_eq hext]
      exact isRetrySkippable_fatal t
    have hrest : ∀ j : Nat, j < rest.length →
        ∃ t2 m2, oracle (g.calls + 1 + j) = .ok t2 ∧
          extractJson t2 = .malformed m2 := by
      intro j hj
      have := hfail (j + 1) (by simpa using Nat.succ_lt_succ hj)
      simpa [Nat.add_assoc, Nat.add_comm 1 j] using this
    have hlen : g.calls + 1 + rest.length = g.calls + (c :: rest).length := by
      simp [List.length_cons]
      omega
    simp only [retryChunks, processBatchStep_malformed hor hext, hskip,
      if_true, ih ⟨g.calls + 1, g.sections⟩ hrest, hlen]

/-- A whole-chapter parse failure in a plain generation pass switches the
chapter to the split-and-retry path. -/
theorem runChapterStep_split {oracle : Nat → Except String String}
    {g : GenState} {ch : Chapter} {t m : String}
    (hor : oracle g.calls = .ok t) (hext : extractJson t = .malformed m) :
    runChapterStep oracle false false g ch =
      retryChunks oracle false ⟨g.calls + 1, g.sections⟩
        (chunkSections (sectionsToProcess ch)) := by
  have hjson : isJsonErrMsg m = true := by
    rw [extractJson_malformed_eq hext]
    exact isJsonErrMsg_fatal t
  simp only [runChapterStep, processBatchStep_malformed hor hext, hjson]
  simp

/-- A chapter whose only-missing check comes back `false` is skipped:
no gateway call, no change. -/
theorem runChapterStep_skip_notMissing {oracle : Nat → Except String String}
    {isVis : Bool} {g : GenState} {ch : Chapter}
    (h : allMissing isVis g.sections (sectionsToProcess ch) = .ok false) :
    runChapterStep oracle isVis true g ch = .ok g := by
  unfold runChapterStep
  by_cases hden : (isVis && titleDenylisted (sget g.sections ch.root).title) = true
  · rw [if_pos hden]
  · rw [if_neg hden]
    simp [h]

/-- In visuals mode a chapter whose root title matches the denylist is
skipped outright. -/
theorem runChapterStep_denylist {oracle : Nat → Except String String}
    {onlyMissing : Bool} {g : GenState} {ch : Chapter}
    (h : titleDenylisted (sget g.sections ch.root).title = true) :
    runChapterStep oracle true onlyMissing g ch = .ok g := by
  unfold runChapterStep
  simp [h]

/-- In content mode the only-missing check returns `false` exactly when some
processed section already has non-blank content. -/
theorem allMissing_content_iff (st : List ThesisSection) :
    ∀ idxs : List Nat,
      allMissing false st idxs = .ok false ↔
        ∃ i ∈ idxs, isMissingContent (sget st i) = false := by
  intro idxs
  induction idxs with
  | nil => simp [allMissing]
  | cons i rest ih =>
    cases hmi : isMissingContent (sget st i) with
    | false =>
      have hred : allMissing false st (i :: rest) = .ok false := by
        simp [allMissing, isMissingTarget, hmi]
      rw [hred]
      simp [hmi]
    | true =>
      have hred : allMissing false st (i :: rest) = allMissing false st rest := by
        simp [allMissing, isMissingTarget, hmi]
      rw [hred, ih]
      simp [hmi]

/-! ## Populated-id bookkeeping for the idempotence claim -/

theorem inBatchWrites_refl (B : List Nat) (st : List ThesisSection) :
    inBatchWrites B st st :=
  ⟨rfl, fun _ => Or.inl rfl⟩

theorem inBatchWrites_trans {B : List Nat} {st st2 st3 : List ThesisSection}
    (h1 : inBatchWrites B st st2) (h2 : inBatchWrites B st2 st3) :
    inBatchWrites B st st3 := by
  refine ⟨h1.1 ▸ h2.1, fun i => ?_⟩
  rcases h2.2 i with he | ⟨hb, s3, hs3, hm3⟩
  · rcases h1.2 i with he1 | ⟨hb, s2, hs2, hm2⟩
    · exact Or.inl (he.trans he1)
    · exact Or.inr ⟨hb, s2, he.trans hs2, hm2⟩
  · exact Or.inr ⟨hb, s3, hs3, hm3⟩

theorem findIdx?_map_eq {α : Type _} {β : Type _} (f : α → β) (p : β → Bool) :
    ∀ (l1 l2 : List α), l1.map f = l2.map f →
      l1.findIdx? (fun a => p (f a)) = l2.findIdx? (fun a => p (f a)) := by
  intro l1
  induction l1 with
  | nil =>
    intro l2 h
    cases l2 with
    | nil => rfl
    | cons b l2 => simp at h
  | cons a l1 ih =>
    intro l2 h
    cases l2 with
    | nil => simp at h
    | cons b l2 =>
      simp only [List.map_cons, List.cons.injEq] at h
      obtain ⟨hab, hrest⟩ := h
      simp only [List.findIdx?_cons, hab]
      by_cases hp : p (f b)
      · simp [hp]
      · simp only [hp, if_false, List.findIdx?_start_succ, ih l2 hrest]

theorem findIdx?_ids_congr {st st2 : List ThesisSection}
    (h : idsOf st2 = idsOf st) (k : String) :
    st2.findIdx? (fun s => s.id == k) = st.findIdx? (fun s => s.id == k) :=
  findIdx?_map_eq (fun s : ThesisSection => s.id) (fun x => x == k) st2 st
    (h.trans rfl)

theorem applyEntry_inBatch {B : List Nat} {st st2 : List ThesisSection}
    {kv : String × Json} (h : applyEntry false st kv = .ok st2)
    (hin : ∀ j : Nat, st.findIdx? (fun s => s.id == kv.1) = some j → j ∈ B)
    (hval : ∀ s : String, kv.2 = .str s → jsTrimS (contentTransform s) ≠ "") :
    inBatchWrites B st st2 := by
  have hids := applyEntry_ids h
  refine ⟨hids, fun i => ?_⟩
  unfold applyEntry at h
  split at h
  · cases h; exact Or.inl rfl
  next j hfind =>
    have hfound := findIdx?_found (fun s => s.id == kv.1) dummySection st j hfind
    simp only [Bool.false_eq_true, if_false] at h
    split at h
    next v hv =>
      cases h
      by_cases hij : j = i
      · subst hij
        refine Or.inr ⟨hin j hfind, _, List.getElem?_set_self (by simpa using hfound.1), ?_⟩
        have hnz := hval v hv
        have hcne : contentTransform v ≠ "" := by
          intro he
          apply hnz
          rw [he]
          rfl
        simp [isMissingContent, hcne, hnz]
      · exact Or.inl (List.getElem?_set_ne hij)
    · cases h

theorem applyEntries_inBatch {B : List Nat} :
    ∀ {es : List (String × Json)} {st st2 : List ThesisSection},
      applyEntries false st es = .ok st2 →
      (∀ e ∈ es, ∀ j : Nat,
        st.findIdx? (fun s => s.id == e.1) = some j → j ∈ B) →
      (∀ e ∈ es, ∀ s : String, e.2 = .str s →
        jsTrimS (contentTransform s) ≠ "") →
      inBatchWrites B st st2 := by
  intro es
  induction es with
  | nil =>
    intro st st2 h _ _
    cases h
    exact inBatchWrites_refl B st
  | cons e rest ih =>
    intro st st2 h hin hval
    unfold applyEntries at h
    split at h
    · cases h
    next stm hstep =>
      have h1 := applyEntry_inBatch hstep
        (hin e (List.mem_cons_self e rest))
        (hval e (List.mem_cons_self e rest))
      have hin2 : ∀ e2 ∈ rest, ∀ j : Nat,
          stm.findIdx? (fun s => s.id == e2.1) = some j → j ∈ B := by
        intro e2 he2 j hj
        rw [findIdx?_ids_congr h1.1] at hj
        exact hin e2 (List.mem_cons_of_mem e he2) j hj
      have h2 := ih h hin2
        (fun e2 he2 => hval e2 (List.mem_cons_of_mem e he2))
      exact inBatchWrites_trans h1 h2

theorem applyParsed_inBatch {B : List Nat} {st st2 : List ThesisSection}
    {v : Json} (h : applyParsed false st v = .ok st2)
    (hin : ∀ e ∈ jsEntries v, ∀ j : Nat,
      st.findIdx? (fun s => s.id == e.1) = some j → j ∈ B)
    (hval : ∀ e ∈ jsEntries v, ∀ s : String, e.2 = .str s →
      jsTrimS (contentTransform s) ≠ "") :
    inBatchWrites B st st2 := by
  unfold applyParsed at h
  split at h
  · exact applyEntries_inBatch h hin hval
  · cases h; exact inBatchWrites_refl B st

theorem inBatchWrites_populated {B : List Nat} {st st2 : List ThesisSection}
    (h : inBatchWrites B st st2)
    (hpop : ∀ j ∈ B, populatedAt st j = true) :
    (∀ i : Nat, i ∉ B → st2[i]? = st[i]?) ∧
    (∀ i : Nat, populatedAt st2 i = populatedAt st i) := by
  constructor
  · intro i hib
    rcases h.2 i with he | ⟨hb, _⟩
    · exact he
    · exact absurd hb hib
  · intro i
    rcases h.2 i with he | ⟨hb, s2, hs2, hm2⟩
    · simp [populatedAt, sget, List.getD_eq_getElem?_getD, he]
    · have h1 : populatedAt st2 i = true := by
        simp [populatedAt, sget, List.getD_eq_getElem?_getD, hs2, hm2]
      rw [h1, hpop i hb]

/-! ## Sequencing of the chapter loop -/

theorem runChapters_append {oracle : Nat → Except String String}
    {isVis onlyMissing : Bool} :
    ∀ (l1 l2 : List Chapter) (g : GenState),
      runChapters oracle isVis onlyMissing g (l1 ++ l2) =
        match runChapters oracle isVis onlyMissing g l1 with
        | .error m => .error m
        | .ok g2 => runChapters oracle isVis onlyMissing g2 l2 := by
  intro l1
  induction l1 with
  | nil => intro l2 g; rfl
  | cons ch rest ih =>
    intro l2 g
    simp only [List.cons_append, runChapters]
    split
    · rfl
    · exact ih l2 _

theorem jsTrim_cons {c : Char} {t : List Char} (hc : isJsSpace c = false) :
    ∃ t2, jsTrim (c :: t) = c :: t2 := by
  unfold jsTrim
  rw [List.dropWhile_cons_of_neg (by simp [hc])]
  rw [List.reverse_cons, List.dropWhile_append]
  by_cases he : (t.reverse.dropWhile isJsSpace).isEmpty
  · rw [if_pos he]
    rw [show ([c].dropWhile isJsSpace) = [c] from by
      rw [List.dropWhile_cons_of_neg (by simp [hc])]]
    exact ⟨[], rfl⟩
  · rw [if_neg he]
    exact ⟨(t.reverse.dropWhile isJsSpace).reverse, by
      rw [List.reverse_append]
      rfl⟩

/-! ## The claims -/

/-- C2: a text that is itself well-formed JSON is returned as the directly
parsed value; a non-empty text on which every strategy of the cascade
(direct parse, fenced blocks, unclosed-fence prefix, outermost-bracket span,
repaired span) fails yields `MalformedOutput` carrying the first 100
characters of the original text. -/
theorem c2_extract_json_cascade :
    (∀ (text : String) (v : Json), parseJson text = some v →
      extractJson text = .ok v) ∧
    (∀ text : String, text ≠ "" →
      stratDirect text.data = none →
      stratFenced (jsTrim text.data) = none →
      stratUnclosed (jsTrim text.data) = none →
      stratBracket (jsTrim text.data) = none →
      stratRepair (jsTrim text.data) = none →
      extractJson text =
        .malformed ("Fatal JSON Error. Raw Text Snippet: " ++
          String.mk (text.data.take 100) ++ "...")) := by
  constructor
  · intro text v h
    have hne : text.data ≠ [] := by
      intro he
      rw [parseJson, he] at h
      rw [show parseJsonL ([] : List Char) = none from rfl] at h
      cases h
    unfold extractJson
    rw [if_neg hne]
    rw [show stratDirect text.data = some v from h]
  · intro text hne h1 h2 h3 h4 h5
    have hdne : text.data ≠ [] := by
      intro he
      apply hne
      cases text with
      | mk d =>
        simp only at he
        subst he
        rfl
    unfold extractJson
    rw [if_neg hdne, h1, h2, h3, h4, h5]
    have hsub : jsSubstring text.data 0 100 = text.data.take 100 := by
      simp only [jsSubstring, Nat.min_self, Nat.zero_min, Nat.max_eq_right
        (Nat.zero_le 100), List.drop_zero]
      rw [← List.take_take, List.take_length]
    rw [fatalJsonMsg, hsub]

/-- C2 witness: a direct-JSON input is returned parsed, and a fully
non-JSON input produces the `MalformedOutput` message with its prefix. -/
theorem c2_extract_json_cascade_witness :
    extractJson "\x7b\"a\": 1\x7d" = .ok (.obj [("a", .num 1 0)]) ∧
    extractJson "hello world" =
      .malformed "Fatal JSON Error. Raw Text Snippet: hello world..." :=
  ⟨c2_extract_json_cascade.1 "\x7b\"a\": 1\x7d" (.obj [("a", .num 1 0)]) rfl,
   c2_extract_json_cascade.2 "hello world" (by decide) rfl rfl rfl rfl rfl⟩

/-- C3: on a text whose code fence is opened but never closed (and with no
complete fenced block), when the group after the opening fence, trimmed and
cut at its last `}`, parses as JSON, `extractJson` returns that value. -/
theorem c3_unclosed_fence_recovery (text : String) (g : List Char) (i : Nat)
    (v : Json)
    (h0 : stratDirect text.data = none)
    (h1 : fencedGroups (jsTrim text.data) = [])
    (h2 : unclosedGroup (jsTrim text.data) = some g)
    (h3 : lastIdxOfChar (jsTrim g) rbrace = some i)
    (h4 : parseJsonL ((jsTrim g).take (i + 1)) = some v) :
    extractJson text = .ok v := by
  have hdne : text.data ≠ [] := by
    intro he
    rw [he] at h2
    rw [show unclosedGroup (jsTrim ([] : List Char)) = none from rfl] at h2
    cases h2
  unfold extractJson
  rw [if_neg hdne, h0]
  have hf : stratFenced (jsTrim text.data) = none := by
    unfold stratFenced
    rw [h1]
    simp
  rw [hf]
  have hu : stratUnclosed (jsTrim text.data) = some v := by
    unfold stratUnclosed
    rw [if_pos h1]
    simp only [h2, h3, h4]
  rw [hu]

/-- C3 witness: a truncated fenced block is recovered up to its last `}`. -/
theorem c3_unclosed_fence_recovery_witness :
    extractJson "bla ```json\n\x7b\"a\": 1\x7d trailing" =
      .ok (.obj [("a", .num 1 0)]) :=
  c3_unclosed_fence_recovery "bla ```json\n\x7b\"a\": 1\x7d trailing"
    "\x7b\"a\": 1\x7d trailing".data 7 (.obj [("a", .num 1 0)])
    rfl rfl rfl rfl rfl

/-- C10: the empty model response parses to JS `null` rather than throwing,
which makes the batch write a no-op: the call is counted, no section is
touched, no error is raised, and in a plain generation pass the chapter
completes successfully with no split-retry. -/
theorem c10_empty_response_noop :
    extractJson "" = .nullResult ∧
    (∀ (oracle : Nat → Except String String) (isVis : Bool) (g : GenState),
      oracle g.calls = .ok "" →
      processBatchStep oracle isVis g = (⟨g.calls + 1, g.sections⟩, none)) ∧
    (∀ (oracle : Nat → Except String String) (g : GenState) (ch : Chapter),
      oracle g.calls = .ok "" →
      runChapterStep oracle false false g ch = .ok ⟨g.calls + 1, g.sections⟩) := by
  refine ⟨rfl, ?_, ?_⟩
  · intro oracle isVis g hor
    exact processBatchStep_null hor rfl
  · intro oracle g ch hor
    simp only [runChapterStep, processBatchStep_null hor rfl]
    simp

/-- C10 witness: a concrete empty response leaves a concrete outline
untouched and raises nothing. -/
theorem c10_empty_response_noop_witness :
    processBatchStep (fun _ => .ok "") false ⟨5, c6Outline⟩ =
      (⟨6, c6Outline⟩, none) ∧
    runChapterStep (fun _ => .ok "") false false ⟨0, c6Outline⟩ ⟨0, [1]⟩ =
      .ok ⟨1, c6Outline⟩ :=
  ⟨c10_empty_response_noop.2.1 (fun _ => .ok "") false ⟨5, c6Outline⟩ rfl,
   c10_empty_response_noop.2.2 (fun _ => .ok "") ⟨0, c6Outline⟩ ⟨0, [1]⟩ rfl⟩

/-- C1: on a whole-chapter parse failure the chapter's section list is split
into at most three contiguous sub-batches of size `ceil(n/3)` whose
concatenation is the original list; each sub-batch is retried exactly once
in order, a sub-batch whose retry fails to parse again is logged and skipped
with no further retry; and in the concrete 9-section scenario (failing
whole-chapter call, three successful 3-section sub-batch calls) all nine
sections receive content with exactly 1 + 3 = 4 gateway calls. -/
theorem c1_split_retry :
    (∀ idxs : List Nat, idxs ≠ [] →
      (chunkSections idxs).flatten = idxs ∧
      (chunkSections idxs).length ≤ 3 ∧
      (∀ c ∈ chunkSections idxs, c ≠ [] ∧ c.length ≤ ceilDiv3 idxs.length) ∧
      (∀ j : Nat, j + 1 < (chunkSections idxs).length →
        ((chunkSections idxs).getD j []).length = ceilDiv3 idxs.length)) ∧
    (∀ (oracle : Nat → Except String String) (isVis : Bool)
       (chunks : List (List Nat)) (g : GenState),
      (∀ j : Nat, j < chunks.length →
        ∃ t m, oracle (g.calls + j) = .ok t ∧ extractJson t = .malformed m) →
      retryChunks oracle isVis g chunks =
        .ok ⟨g.calls + chunks.length, g.sections⟩) ∧
    (∀ (oracle : Nat → Except String String) (g : GenState) (ch : Chapter)
       (t m : String),
      oracle g.calls = .ok t → extractJson t = .malformed m →
      runChapterStep oracle false false g ch =
        retryChunks oracle false ⟨g.calls + 1, g.sections⟩
          (chunkSections (sectionsToProcess ch))) ∧
    chaptersOf c1Outline = [⟨0, [1, 2, 3, 4, 5, 6, 7, 8, 9]⟩] ∧
    chunkSections [1, 2, 3, 4, 5, 6, 7, 8, 9] =
      [[1, 2, 3], [4, 5, 6], [7, 8, 9]] ∧
    runContentInjectionAgent c1Oracle "Writer" false c1Outline =
      .ok ⟨4, c1Expected⟩ := by
  refine ⟨chunkSections_spec, ?_, ?_, rfl, rfl, rfl⟩
  · intro oracle isVis chunks g hfail
    exact retryChunks_allFail chunks g hfail
  · intro oracle g ch t m hor hext
    exact runChapterStep_split hor hext

/-- C1 witness: the retry loop on two sub-batches that both fail to parse
makes exactly two further calls, skips both, and leaves the outline as it
was. -/
theorem c1_split_retry_witness :
    retryChunks (fun _ => .ok "???") false ⟨1, c1Outline⟩ [[1, 2], [3]] =
      .ok ⟨3, c1Outline⟩ :=
  c1_split_retry.2.1 (fun _ => .ok "???") false [[1, 2], [3]] ⟨1, c1Outline⟩
    (fun _ _ => ⟨"???", fatalJsonMsg "???", rfl, rfl⟩)

/-- C4: none of the six gateway error kinds is classified as a JSON/parse
error, so a gateway error raised by the whole-chapter call aborts the
chapter with no sub-batch retry, a gateway error raised during a sub-batch
retry is rethrown rather than skipped, and a chapter error aborts the whole
run with the same message. -/
theorem c4_gateway_error_propagation :
    (∀ k : GatewayErrorKind,
      isJsonErrMsg (gwMessage k) = false ∧
      isRetrySkippable (gwMessage k) = false) ∧
    (∀ (oracle : Nat → Except String String) (isVis onlyM : Bool)
       (g : GenState) (ch : Chapter) (k : GatewayErrorKind),
      (isVis && titleDenylisted (sget g.sections ch.root).title) = false →
      (if onlyM then allMissing isVis g.sections (sectionsToProcess ch)
       else Except.ok true) = .ok true →
      oracle g.calls = .error (gwMessage k) →
      runChapterStep oracle isVis onlyM g ch = .error (gwMessage k)) ∧
    (∀ (oracle : Nat → Except String String) (isVis onlyM : Bool)
       (g : GenState) (ch : Chapter) (t m : String) (k : GatewayErrorKind),
      (isVis && titleDenylisted (sget g.sections ch.root).title) = false →
      (if onlyM then allMissing isVis g.sections (sectionsToProcess ch)
       else Except.ok true) = .ok true →
      oracle g.calls = .ok t → extractJson t = .malformed m →
      oracle (g.calls + 1) = .error (gwMessage k) →
      runChapterStep oracle isVis onlyM g ch = .error (gwMessage k)) ∧
    (∀ (oracle : Nat → Except String String) (agentName : String)
       (onlyM : Bool) (st : List ThesisSection) (pre post : List Chapter)
       (ch : Chapter) (g : GenState) (m : String),
      chaptersOf st = pre ++ ch :: post →
      runChapters oracle (isVisualsAgent agentName) onlyM ⟨0, st⟩ pre = .ok g →
      runChapterStep oracle (isVisualsAgent agentName) onlyM g ch = .error m →
      runContentInjectionAgent oracle agentName onlyM st = .error m) := by
  refine ⟨?_, ?_, ?_, ?_⟩
  · intro k
    cases k <;> exact ⟨rfl, rfl⟩
  · intro oracle isVis onlyM g ch k hden hmiss hor
    have hjson : isJsonErrMsg (gwMessage k) = false := by
      cases k <;> rfl
    unfold runChapterStep
    rw [if_neg (by simp [hden]), hmiss]
    simp only [processBatchStep_gwError hor, hjson]
    simp
  · intro oracle isVis onlyM g ch t m k hden hmiss hor hext hor2
    have hjson : isJsonErrMsg m = true := by
      rw [extractJson_malformed_eq hext]
      exact isJsonErrMsg_fatal t
    have hskip : isRetrySkippable (gwMessage k) = false := by
      cases k <;> rfl
    have hne : sectionsToProcess ch ≠ [] := by
      unfold sectionsToProcess
      split
      · simp
      next hc => exact hc
    have hchunks : chunkSections (sectionsToProcess ch) ≠ [] := by
      intro he
      apply hne
      have hfl := (chunkSections_spec (sectionsToProcess ch) hne).1
      rw [he] at hfl
      exact hfl.symm
    obtain ⟨c0, rest, hcr⟩ : ∃ c0 rest,
        chunkSections (sectionsToProcess ch) = c0 :: rest := by
      cases hc : chunkSections (sectionsToProcess ch) with
      | nil => exact absurd hc hchunks
      | cons c0 rest => exact ⟨c0, rest, rfl⟩
    unfold runChapterStep
    rw [if_neg (by simp [hden]), hmiss]
    simp only [processBatchStep_malformed hor hext, hjson, hcr]
    have hretry : retryChunks oracle isVis ⟨g.calls + 1, g.sections⟩
        (c0 :: rest) = .error (gwMessage k) := by
      unfold retryChunks
      simp only [processBatchStep_gwError (g := ⟨g.calls + 1, g.sections⟩) hor2,
        hskip]
      simp
    simp only [hretry]
    simp
  · intro oracle agentName onlyM st pre post ch g m hsplit hpre hstep
    unfold runContentInjectionAgent
    rw [hsplit, runChapters_append, hpre]
    simp only [runChapters, hstep]

/-- C4 witness: an `Unauthorized` gateway error on the first whole-chapter
call aborts a concrete run with exactly that message. -/
theorem c4_gateway_error_propagation_witness :
    runContentInjectionAgent (fun _ => .error (gwMessage .unauthorized))
      "Writer" false c1Outline = .error (gwMessage .unauthorized) :=
  c4_gateway_error_propagation.2.2.2
    (fun _ => .error (gwMessage .unauthorized)) "Writer" false c1Outline
    [] [] ⟨0, [1, 2, 3, 4, 5, 6, 7, 8, 9]⟩ ⟨0, c1Outline⟩
    (gwMessage .unauthorized) rfl rfl
    (c4_gateway_error_propagation.2.1
      (fun _ => .error (gwMessage .unauthorized)) false false
      ⟨0, c1Outline⟩ ⟨0, [1, 2, 3, 4, 5, 6, 7, 8, 9]⟩ .unauthorized
      rfl rfl rfl)

/-- C5 counterexample: the claim fails as stated.  In `c5Outline` the second
chapter (root index 2, children 3 and 4) has a processed section with
non-empty content (index 3, `"x"`), yet a gap-repair pass modifies that
chapter: regenerating the completely-empty first chapter, the model response
maps the id `c` of the second chapter's empty section — `processBatch` looks
ids up over the whole outline — and writes content into index 4. -/
theorem c5_gap_repair_counterexample :
    chaptersOf c5Outline = [⟨0, [1]⟩, ⟨2, [3, 4]⟩] ∧
    isMissingContent (sget c5Outline 3) = false ∧
    c5Outline.map (fun s => s.content) = [none, none, none, some "x", none] ∧
    (runContentInjectionAgent c5Oracle "Chief Editor (Content Fix)" true
        c5Outline).map
      (fun g => (g.calls, g.sections.map (fun s => s.content))) =
      .ok (1, [none, none, none, some "x", some "hacked"]) :=
  ⟨rfl, rfl, rfl, rfl⟩

/-- C5 as amended: a chapter whose only-missing check finds a non-missing
processed section is skipped by its own step with no model call and no
change (and in content mode that check is exactly "some processed section
has non-blank content"); such a chapter's sections survive the whole pass
unchanged provided no model response in the pass maps any of its ids; and
the claim's one-chapter instance (3 sections, 1 filled, 2 empty) is left
entirely unchanged with zero model calls. -/
theorem c5_gap_repair_conservative :
    (∀ (oracle : Nat → Except String String) (isVis : Bool) (g : GenState)
       (ch : Chapter),
      allMissing isVis g.sections (sectionsToProcess ch) = .ok false →
      runChapterStep oracle isVis true g ch = .ok g) ∧
    (∀ (st : List ThesisSection) (idxs : List Nat),
      allMissing false st idxs = .ok false ↔
        ∃ i ∈ idxs, isMissingContent (sget st i) = false) ∧
    (∀ (oracle : Nat → Except String String) (agentName : String)
       (st : List ThesisSection) (g2 : GenState) (P : List String),
      oracleAvoids oracle P →
      runContentInjectionAgent oracle agentName true st = .ok g2 →
      ∀ (i : Nat) (s : ThesisSection), st[i]? = some s → s.id ∈ P →
        g2.sections[i]? = st[i]?) ∧
    runContentInjectionAgent (fun _ => .error "unused")
      "Chief Editor (Content Fix)" true c5OneChapter =
      .ok ⟨0, c5OneChapter⟩ := by
  refine ⟨?_, ?_, ?_, rfl⟩
  · intro oracle isVis g ch h
    exact runChapterStep_skip_notMissing h
  · intro st idxs
    exact allMissing_content_iff st idxs
  · intro oracle agentName st g2 P hav hrun i s hs hp
    exact (runAgent_frame hav hrun).2 i s hs hp

/-- C5 witness: the skip branch at a concrete chapter with one filled
section — no call, state returned untouched. -/
theorem c5_gap_repair_conservative_witness :
    runChapterStep (fun _ => .error "unused") false true ⟨0, c5OneChapter⟩
      ⟨0, [1, 2, 3]⟩ = .ok ⟨0, c5OneChapter⟩ :=
  c5_gap_repair_conservative.1 (fun _ => .error "unused") false
    ⟨0, c5OneChapter⟩ ⟨0, [1, 2, 3]⟩ rfl

/-- C6 counterexample: the claim fails as stated.  Running the batch for the
first chapter of `c6Outline` (requested batch = index 1 only) with a
response that names `b` — the id of the unfilled section at index 3, outside
the batch — makes that outside section gain content: `processBatch` looks
response ids up over the whole outline, not the batch. -/
theorem c6_fill_chapter_counterexample :
    sectionsToProcess ⟨0, [1]⟩ = [1] ∧
    c6Outline.map (fun s => s.content) = [none, some "old", none, none] ∧
    (runChapterStep c6Oracle false false ⟨0, c6Outline⟩ ⟨0, [1]⟩).map
      (fun g => g.sections.map (fun s => s.content)) =
      .ok [none, some "old", none, some "y"] :=
  ⟨rfl, rfl, rfl⟩

/-- C6 as amended: a parsed response id matching no section is ignored; and
when every matched response id lies in the requested batch and every written
value is a string that stays non-blank after heading-stripping, a successful
batch write on a chapter whose batch sections are all populated preserves
ids, leaves every position outside the batch untouched, and keeps the set of
populated positions exactly as before. -/
theorem c6_fill_chapter_frame :
    (∀ (isVis : Bool) (st : List ThesisSection) (kv : String × Json),
      st.findIdx? (fun s => s.id == kv.1) = none →
      applyEntry isVis st kv = .ok st) ∧
    (∀ (st st2 : List ThesisSection) (v : Json) (B : List Nat),
      applyParsed false st v = .ok st2 →
      (∀ e ∈ jsEntries v, ∀ j : Nat,
        st.findIdx? (fun s => s.id == e.1) = some j → j ∈ B) →
      (∀ e ∈ jsEntries v, ∀ s : String, e.2 = .str s →
        jsTrimS (contentTransform s) ≠ "") →
      (∀ j ∈ B, populatedAt st j = true) →
      idsOf st2 = idsOf st ∧
      (∀ i : Nat, i ∉ B → st2[i]? = st[i]?) ∧
      (∀ i : Nat, populatedAt st2 i = populatedAt st i)) := by
  constructor
  · intro isVis st kv h
    unfold applyEntry
    rw [h]
  · intro st st2 v B h hin hval hpop
    have hw := applyParsed_inBatch h hin hval
    have hp := inBatchWrites_populated hw hpop
    exact ⟨hw.1, hp.1, hp.2⟩

/-- C6 witness: re-running a fully-populated one-section batch with a fresh
non-empty value keeps the populated set identical, and an unknown id is a
no-op. -/
theorem c6_fill_chapter_frame_witness :
    applyEntry false [⟨"a", "T", 2, some "x", none⟩] ("zzz", .str "v") =
      .ok [⟨"a", "T", 2, some "x", none⟩] ∧
    applyParsed false [⟨"a", "T", 2, some "x", none⟩]
      (.obj [("a", .str "fresh")]) = .ok [⟨"a", "T", 2, some "fresh", none⟩] ∧
    (∀ i : Nat, populatedAt [⟨"a", "T", 2, some "fresh", none⟩] i =
      populatedAt [⟨"a", "T", 2, some "x", none⟩] i) := by
  refine ⟨c6_fill_chapter_frame.1 false _ ("zzz", .str "v") rfl, rfl, ?_⟩
  have h := c6_fill_chapter_frame.2 [⟨"a", "T", 2, some "x", none⟩]
    [⟨"a", "T", 2, some "fresh", none⟩] (.obj [("a", .str "fresh")]) [0]
    rfl ?_ ?_ ?_
  · exact h.2.2
  · intro e he j hj
    rw [show jsEntries (.obj [("a", Json.str "fresh")]) =
      [("a", Json.str "fresh")] from rfl] at he
    rw [List.mem_singleton.mp he] at hj
    rw [show List.findIdx? (fun s => s.id == ("a", Json.str "fresh").1)
      [(⟨"a", "T", 2, some "x", none⟩ : ThesisSection)] = some 0 from rfl] at hj
    cases hj
    exact List.mem_singleton_self 0
  · intro e he s hs
    rw [show jsEntries (.obj [("a", Json.str "fresh")]) =
      [("a", Json.str "fresh")] from rfl] at he
    rw [List.mem_singleton.mp he] at hs
    cases hs
    decide
  · intro j hj
    rw [List.mem_singleton.mp hj]
    rfl

/-- C7 counterexample: the claim fails as stated.  A section titled 参考文献
matches the visuals denylist, yet section-level regeneration in visuals mode
applies no denylist at all and writes its `visuals` field. -/
theorem c7_visuals_denylist_counterexample :
    titleDenylisted "参考文献" = true ∧
    isVisualsAgent "Visuals" = true ∧
    c7Outline.map (fun s => s.visuals.isSome) = [false] ∧
    (regenerateSpecificSections (.ok "\x7b\"r\":\"|t|\"\x7d") "Visuals" ["r"]
        c7Outline).map (fun l => l.map (fun s => s.visuals.isSome)) =
      .ok [true] :=
  ⟨rfl, rfl, rfl, rfl⟩

/-- C7 as amended: the denylist protection exists only at chapter
granularity in the batch-generation pass — a chapter whose root title
matches the denylist is skipped there with no model call and no change
(shown also on a concrete whole run over a 参考文献 chapter, zero calls);
section-level regeneration applies no such filter. -/
theorem c7_visuals_denylist_chapter_skip :
    (∀ (oracle : Nat → Except String String) (onlyM : Bool) (g : GenState)
       (ch : Chapter),
      titleDenylisted (sget g.sections ch.root).title = true →
      runChapterStep oracle true onlyM g ch = .ok g) ∧
    runContentInjectionAgent (fun _ => .error "unused") "Visuals" false
      c7Outline = .ok ⟨0, c7Outline⟩ ∧
    isVisualsAgent "Chief Editor (Visuals Fix)" = true := by
  refine ⟨?_, rfl, rfl⟩
  intro oracle onlyM g ch h
  exact runChapterStep_denylist h

/-- C7 witness: the skip branch at the concrete 参考文献 chapter. -/
theorem c7_visuals_denylist_chapter_skip_witness :
    runChapterStep (fun _ => .error "unused") true false ⟨0, c7Outline⟩
      ⟨0, []⟩ = .ok ⟨0, c7Outline⟩ :=
  c7_visuals_denylist_chapter_skip.1 (fun _ => .error "unused") false
    ⟨0, c7Outline⟩ ⟨0, []⟩ rfl

/-- C9 counterexample: the claim fails as stated.  The value `# 标题` begins
with a markdown heading marker, but `replace(/^#[^\n]*\n/, '')` needs a
newline after the heading line, so nothing is stripped and the stored
content still begins with its heading line. -/
theorem c9_heading_strip_counterexample :
    "# 标题".data.head? = some '#' ∧
    contentTransform "# 标题" = "# 标题" ∧
    (applyParsed false c9Outline (.obj [("a", .str "# 标题")])).map
      (fun l => l.map (fun s => s.content)) = .ok [some "# 标题"] :=
  ⟨rfl, rfl, rfl⟩

/-- C9 as amended: when a content value begins with `#` at its first
character and contains a newline, the leading heading line through that
first newline is removed and the remainder trimmed before assignment; and
the content-mode write site stores exactly this transformed value. -/
theorem c9_heading_strip :
    (∀ v : String, v.data.head? = some '#' → '\n' ∈ v.data →
      ∃ pre post : List Char, v.data = '#' :: (pre ++ '\n' :: post) ∧
        '\n' ∉ pre ∧ contentTransform v = String.mk (jsTrim post)) ∧
    (∀ (st : List ThesisSection) (k : String) (v : String) (j : Nat),
      st.findIdx? (fun s => s.id == k) = some j →
      applyEntry false st (k, .str v) =
        .ok (st.set j
          { sget st j with content := some (contentTransform v) })) := by
  constructor
  · intro v hh hn
    obtain ⟨rest, hv⟩ : ∃ rest, v.data = '#' :: rest := by
      cases hd : v.data with
      | nil => rw [hd] at hh; cases hh
      | cons c t =>
        rw [hd] at hh
        simp only [List.head?_cons, Option.some.injEq] at hh
        exact ⟨t, by rw [hh]⟩
    have hnr : '\n' ∈ rest := by
      rw [hv] at hn
      rcases List.mem_cons.mp hn with he | hm
      · cases he
      · exact hm
    have hex : ∃ x, x ∈ rest ∧ (x == '\n') = true := ⟨'\n', hnr, by decide⟩
    have hfind := List.findIdx?_eq_some_of_exists hex
    have hfound := findIdx?_found (fun x => x == '\n') ' ' rest
      (rest.findIdx (fun x => x == '\n')) hfind
    have hklt : rest.findIdx (fun x => x == '\n') < rest.length := hfound.1
    have hkval : rest[rest.findIdx (fun x => x == '\n')]? = some '\n' := by
      have h1 := hfound.2
      rw [List.getD_eq_getElem?_getD] at h1
      cases hq : rest[rest.findIdx (fun x => x == '\n')]? with
      | none => rw [hq] at h1; simp at h1
      | some c =>
        rw [hq] at h1
        simp only [Option.getD_some] at h1
        rw [show c = '\n' from by simpa using h1]
    refine ⟨rest.take (rest.findIdx (fun x => x == '\n')),
      rest.drop (rest.findIdx (fun x => x == '\n') + 1), ?_, ?_, ?_⟩
    · rw [hv]
      congr 1
      conv_lhs => rw [← List.take_append_drop
        (rest.findIdx (fun x => x == '\n')) rest]
      rw [List.drop_eq_getElem_cons hklt]
      obtain ⟨hb, he⟩ := List.getElem?_eq_some_iff.mp hkval
      rw [he]
    · intro hm
      obtain ⟨m, hms⟩ := List.mem_iff_getElem?.mp hm
      have hmlt : m < rest.findIdx (fun x => x == '\n') := by
        have hlen := List.getElem?_eq_some_iff.mp hms
        obtain ⟨hb, _⟩ := hlen
        have : (rest.take (rest.findIdx (fun x => x == '\n'))).length =
            min (rest.findIdx (fun x => x == '\n')) rest.length := by
          simp
        omega
      rw [List.getElem?_take_of_lt hmlt] at hms
      have hne := List.not_of_lt_findIdx hmlt
      obtain ⟨hb2, he2⟩ := List.getElem?_eq_some_iff.mp hms
      rw [he2] at hne
      simp at hne
    · have hcond : (jsTrim v.data).head? == some '#' := by
        rw [hv]
        obtain ⟨t2, ht2⟩ := jsTrim_cons (c := '#') (t := rest) (by decide)
        rw [ht2]
        rfl
      unfold contentTransform
      rw [if_pos hcond]
      congr 2
      show contentTransform.stripHeadingLine v.data = _
      rw [hv]
      unfold contentTransform.stripHeadingLine
      show (if '#' = '#' then
              match idxOfChar rest '\n' with
              | some k => List.drop (k + 1) rest
              | none => '#' :: rest
            else '#' :: rest) =
          List.drop (rest.findIdx (fun x => x == '\n') + 1) rest
      rw [if_pos rfl,
        show idxOfChar rest '\n' = some (rest.findIdx (fun x => x == '\n'))
          from hfind]
  · intro st k v j hfind
    unfold applyEntry
    rw [hfind]
    rfl

/-- C9 witness: a heading-plus-body value is stripped to its trimmed body
at the write site. -/
theorem c9_heading_strip_witness :
    (∃ pre post : List Char,
      "# T\n body ".data = '#' :: (pre ++ '\n' :: post) ∧
      '\n' ∉ pre ∧ contentTransform "# T\n body " = String.mk (jsTrim post)) ∧
    applyEntry false c9Outline ("a", .str "# T\n body ") =
      .ok [⟨"a", "引言", 2, some "body", none⟩] := by
  constructor
  · exact c9_heading_strip.1 "# T\n body " rfl (by decide)
  · have h := c9_heading_strip.2 c9Outline "a" "# T\n body " 0 rfl
    rw [h]
    rfl

/-- C8: a gateway error propagates verbatim; a parsed bare non-empty array
is returned as the section list; so is a non-empty `sections` array of an
object; otherwise a non-empty list produced by the top-level key scan is
returned; every response whose `try` block fails (parse failure, falsy
value, empty structure, or a scan TypeError) surfaces
`StructureGenerationFailed`; and the claim's concrete response yields one
section with id `a`, level `1`, and a title containing 绪论. -/
theorem c8_outline_builder_shapes :
    (∀ m : String, runArchitectAgent (.error m) = .error m) ∧
    (∀ (text : String) (xs : List Json),
      extractJson text = .ok (.arr xs) → xs ≠ [] →
      runArchitectAgent (.ok text) = .ok xs) ∧
    (∀ (text : String) (fs : List (String × Json)) (ys : List Json),
      extractJson text = .ok (.obj fs) →
      jsField fs "sections" = some (.arr ys) → ys ≠ [] →
      runArchitectAgent (.ok text) = .ok ys) ∧
    (∀ (text : String) (fs : List (String × Json)) (ys : List Json),
      extractJson text = .ok (.obj fs) →
      (∀ zs : List Json, jsField fs "sections" ≠ some (.arr zs)) →
      architectScan (jsEntries (.obj fs)) = .ok ys → ys ≠ [] →
      runArchitectAgent (.ok text) = .ok ys) ∧
    (∀ (text e : String), architectInner text = .error e →
      runArchitectAgent (.ok text) = .error architectFailMsg) ∧
    (runArchitectAgent (.ok ("\x7b\"sections\":[\x7b\"id\":\"a\"," ++
        "\"title\":\"# 第一章 绪论\",\"level\":1\x7d]\x7d")) =
      .ok [.obj [("id", .str "a"), ("title", .str "# 第一章 绪论"),
        ("level", .num 1 0)]] ∧
      containsSubS "# 第一章 绪论" "绪论" = true ∧
      runArchitectAgent (.ok "no json here at all") =
        .error architectFailMsg ∧
      runArchitectAgent (.ok "") = .error architectFailMsg) := by
  refine ⟨fun m => rfl, ?_, ?_, ?_, ?_, rfl, rfl, rfl, rfl⟩
  · intro text xs hext hne
    simp only [runArchitectAgent, architectInner, hext]
    simp only [architectPick, Json.truthy]
    simp [List.isEmpty_iff, hne]
  · intro text fs ys hext hsec hne
    simp only [runArchitectAgent, architectInner, hext]
    simp only [architectPick, Json.truthy]
    rw [hsec]
    simp [List.isEmpty_iff, hne]
  · intro text fs ys hext hsec hscan hne
    simp only [runArchitectAgent, architectInner, hext]
    simp only [architectPick, Json.truthy]
    rw [hscan]
    simp [List.isEmpty_iff, hne]
  · intro text e h
    simp only [runArchitectAgent, h]

/-- C8 witness: the bare-array and wrapped shapes at concrete responses. -/
theorem c8_outline_builder_shapes_witness :
    runArchitectAgent (.ok "[\x7b\"id\":\"x\"\x7d]") =
      .ok [.obj [("id", .str "x")]] ∧
    runArchitectAgent (.ok "garbage") = .error architectFailMsg :=
  ⟨c8_outline_builder_shapes.2.1 "[\x7b\"id\":\"x\"\x7d]"
      [.obj [("id", .str "x")]] rfl (by simp),
   c8_outline_builder_shapes.2.2.2.2.1 "garbage"
      (fatalJsonMsg "garbage") rfl⟩

end TF
